import Mathlib

/-! # Detective Quest: clue tree, suspect table, exploration and judgement

A shallow embedding of the C programs of the repository: the exploration of
`A5_detetiveNovato.c`, the clue tree and the exploration of
`A5_detetiveAventureiro.c`, the hash table, the clue tree, the exploration and
the judgement of `A5_detetiveMestre.c`.

Conventions of the embedding.
* A C string is the list of its bytes before the terminating NUL, each byte an
  unsigned value (`unsigned char`), so a well-formed string holds values
  `1..255`.  All functions are total on `List Nat`.
* A nullable pointer to a string is an `Option CStr`; a nullable pointer to a
  tree node is the constructor `nil` of the tree type.
* `malloc` is taken to succeed (the programs call `exit` otherwise).
* In `inserirPista`, `contarSeDoAcusado` and what is built on them the `int`
  counters (`count`, `total`) are unbounded integers, for the properties that
  do not depend on their width; `inserirPistaInt` and `contarSeDoAcusadoInt`
  are the same functions with the 32-bit `int` of the source.
* The table functions compute `djb2 % capacidade`; the C programs divide by
  zero at capacity 0, so properties of tables are stated for capacity `> 0`.
* `unsigned long` has `w` bits; arithmetic on it is reduced modulo `2 ^ w`.
* Standard input is the list of buffers that the successive `fgets` calls
  deliver; when the list is exhausted `fgets` returns `NULL`.  Where a property
  speaks of input lines, `fgets` itself is applied to the unread bytes.
-/

namespace DetectiveQuest

/-! ## Strings -/

/-- A C string, as the list of its bytes before the terminating NUL. -/
abbrev CStr := List Nat

/-- UTF-8 encoding of one code point (the sources are UTF-8 files, so a string
literal such as `"Taça"` holds the bytes of this encoding). -/
def utf8 (c : Nat) : List Nat :=
  if c < 128 then [c]
  else if c < 2048 then [192 + c / 64, 128 + c % 64]
  else if c < 65536 then [224 + c / 4096, 128 + c / 64 % 64, 128 + c % 64]
  else [240 + c / 262144, 128 + c / 4096 % 64, 128 + c / 64 % 64, 128 + c % 64]

/-- The bytes of a C string literal of the sources. -/
def lit (s : String) : CStr := s.toList.flatMap (fun c => utf8 c.toNat)

/-- The library function `strcmp`: compares byte by byte as `unsigned char`; the
standard fixes only the sign of the result, rendered here as `-1`, `0`, `1`.
A string that ends first has the terminating NUL against a non-zero byte. -/
def strcmp : CStr → CStr → Int
  | [], [] => 0
  | [], _ :: _ => -1
  | _ :: _, [] => 1
  | a :: s, b :: t => if a = b then strcmp s t else if a < b then -1 else 1

/-- The library function `isspace` in the "C" locale: space, `\t`, `\n`, `\v`,
`\f`, `\r`. -/
def isspace (c : Nat) : Bool := c == 32 || (9 ≤ c && c ≤ 13)

/-- The library function `tolower` in the "C" locale. -/
def tolower (c : Nat) : Nat := if 65 ≤ c ∧ c ≤ 90 then c + 32 else c

/-- The loop of `rstrip`: `while (n > 0 && isspace(s[n - 1])) s[--n] = 0`.
The result is the string held by the buffer when the loop ends. -/
def rstripLoop (s : CStr) : Nat → CStr
  | 0 => []
  | n + 1 => if isspace (s.getD n 0) then rstripLoop s n else s.take (n + 1)

/-- Function `rstrip` (A5_detetiveMestre.c, 61-67).  The argument is a buffer, never
`NULL` at the only call site. -/
def rstrip (s : CStr) : CStr := rstripLoop s s.length

/-! ## Hash table clue -> suspect (A5_detetiveMestre.c) -/

/-- The loop of `djb2`: `hash = ((hash << 5) + hash) + c` on `unsigned long` of
`w` bits. -/
def djb2Loop (w : Nat) : Nat → CStr → Nat
  | hash, [] => hash
  | hash, c :: str => djb2Loop w ((((hash * 2 ^ 5) % 2 ^ w + hash) % 2 ^ w + c) % 2 ^ w) str

/-- Function `djb2` (A5_detetiveMestre.c, 72-79). -/
def djb2 (w : Nat) (str : CStr) : Nat := djb2Loop w (5381 % 2 ^ w) str

/-- One node of a collision chain; `prox` is the tail of the list holding it. -/
structure HashNode where
  chavePista : CStr
  suspeito : CStr
deriving DecidableEq

/-- The table: `buckets` is the array of `capacidade` chains. -/
structure HashTable where
  capacidade : Nat
  buckets : List (List HashNode)
deriving DecidableEq

/-- Function `criarHash` (A5_detetiveMestre.c, 81-95): `calloc` gives empty chains. -/
def criarHash (capacidade : Nat) : HashTable :=
  { capacidade := capacidade, buckets := List.replicate capacidade [] }

/-- The `for` loop of `inserirNaHash` over one chain: replaces the suspect of
the first node whose key equals `pista`; `none` when the loop finds no such
node. -/
def atualizarCadeia (pista suspeito : CStr) : List HashNode → Option (List HashNode)
  | [] => none
  | no :: prox =>
    if strcmp no.chavePista pista = 0 then
      some ({ no with suspeito := suspeito } :: prox)
    else
      (atualizarCadeia pista suspeito prox).map (fun c => no :: c)

/-- Function `inserirNaHash` (A5_detetiveMestre.c, 98-121); the result is the table
after the call.  At capacity 0 the C code divides by zero: the function is meant
for tables of positive capacity. -/
def inserirNaHash (w : Nat) : Option HashTable → Option CStr → Option CStr → Option HashTable
  | some ht, some pista, some suspeito =>
    let h := djb2 w pista % ht.capacidade
    match atualizarCadeia pista suspeito (ht.buckets.getD h []) with
    | some cadeia => some { ht with buckets := ht.buckets.set h cadeia }
    | none =>
      some { ht with
        buckets := ht.buckets.set h
          ({ chavePista := pista, suspeito := suspeito } :: ht.buckets.getD h []) }
  | ht, _, _ => ht

/-- The `for` loop of `encontrarSuspeito` over one chain. -/
def buscarNaCadeia (pista : CStr) : List HashNode → Option CStr
  | [] => none
  | no :: prox =>
    if strcmp no.chavePista pista = 0 then some no.suspeito
    else buscarNaCadeia pista prox

/-- Function `encontrarSuspeito` (A5_detetiveMestre.c, 124-133); `none` is `NULL`.
At capacity 0 the C code divides by zero: the function is meant for tables of
positive capacity. -/
def encontrarSuspeito (w : Nat) : Option HashTable → Option CStr → Option CStr
  | some ht, some pista =>
    buscarNaCadeia pista (ht.buckets.getD (djb2 w pista % ht.capacidade) [])
  | _, _ => none

/-! ## Clue tree (A5_detetiveMestre.c and A5_detetiveAventureiro.c, same text) -/

/-- A pointer to a `PistaNode`: `nil` is `NULL`. -/
inductive PistaNode where
  | nil
  | node (texto : CStr) (count : Int) (esq dir : PistaNode)
deriving DecidableEq

/-- Function `inserirPista` (A5_detetiveMestre.c, 154-181; A5_detetiveAventureiro.c,
85-114); the result is `*raiz` after the call.  The count is taken here as an
unbounded integer; `inserirPistaInt` is the same function with the `int` count
of the source. -/
def inserirPista : PistaNode → Option CStr → PistaNode
  | raiz, none => raiz
  | raiz, some [] => raiz
  | .nil, some (c :: s) => .node (c :: s) 1 .nil .nil
  | .node texto count esq dir, some (c :: s) =>
    if strcmp (c :: s) texto = 0 then .node texto (count + 1) esq dir
    else if strcmp (c :: s) texto < 0 then
      .node texto count (inserirPista esq (some (c :: s))) dir
    else
      .node texto count esq (inserirPista dir (some (c :: s)))

/-- Function `percorrerInOrder` (A5_detetiveMestre.c, 186-191); the callback receives
the node and the user data and returns the user data after its call. -/
def percorrerInOrder {σ : Type} : PistaNode → (PistaNode → σ → σ) → σ → σ
  | .nil, _, udata => udata
  | .node texto count esq dir, f, udata =>
    percorrerInOrder dir f
      (f (.node texto count esq dir) (percorrerInOrder esq f udata))

/-- Decimal form of a `%d` argument. -/
def fmtInt (i : Int) : CStr :=
  if i < 0 then 45 :: (Nat.toDigits 10 i.natAbs).map Char.toNat
  else (Nat.toDigits 10 i.toNat).map Char.toNat

/-- The line that `exibirPistas` prints for one node. -/
def linhaDaPista (texto : CStr) (count : Int) : CStr :=
  if count > 1 then lit "- " ++ texto ++ lit " (x" ++ fmtInt count ++ lit ")\n"
  else lit "- " ++ texto ++ lit "\n"

/-- Function `exibirPistas` (A5_detetiveMestre.c, 194-200; A5_detetiveAventureiro.c,
117-125): the lines printed, in order. -/
def exibirPistas : PistaNode → List CStr
  | .nil => []
  | .node texto count esq dir =>
    exibirPistas esq ++ [linhaDaPista texto count] ++ exibirPistas dir

/-- A visitor for `percorrerInOrder` that appends the visited node's text and
count to the user data. -/
def anotar : PistaNode → List (CStr × Int) → List (CStr × Int)
  | .nil, acc => acc
  | .node texto count _ _, acc => acc ++ [(texto, count)]

/-- The in-order listing of a clue tree: what `percorrerInOrder` visits. -/
def emOrdem (r : PistaNode) : List (CStr × Int) := percorrerInOrder r anotar []

/-- Number of nodes (entries) of a clue tree. -/
def numEntradas : PistaNode → Nat
  | .nil => 0
  | .node _ _ esq dir => numEntradas esq + 1 + numEntradas dir

/-- Ordering by `strcmp`: `a` sorts strictly before `b`. -/
def antes (a b : CStr) : Prop := strcmp a b < 0

instance (a b : CStr) : Decidable (antes a b) := by unfold antes; infer_instance

/-! ## Judgement (A5_detetiveMestre.c) -/

/-- The context handed to `contarSeDoAcusado` through `udata`. -/
structure ContadorSuspeitoCtx where
  ht : Option HashTable
  acusado : CStr
  total : Int

/-- Function `contarSeDoAcusado` (A5_detetiveMestre.c, 327-333).  It is only
called on a node, never on `NULL`.  The total is taken here as an unbounded
integer; `contarSeDoAcusadoInt` is the same function with the `int` total of
the source. -/
def contarSeDoAcusado (w : Nat) : PistaNode → ContadorSuspeitoCtx → ContadorSuspeitoCtx
  | .nil, ctx => ctx
  | .node texto count _ _, ctx =>
    match encontrarSuspeito w ctx.ht (some texto) with
    | some sus =>
      if strcmp sus ctx.acusado = 0 then { ctx with total := ctx.total + count }
      else ctx
    | none => ctx

/-- What the judgement phase concludes. -/
inductive Julgamento where
  | entradaInvalida
  | nenhumNome
  | culpado (total : Int) (acusado : CStr)
  | insuficiente (total : Int) (acusado : CStr)
deriving DecidableEq

/-- Function `verificarSuspeitoFinal` (A5_detetiveMestre.c, 336-366): the
conclusion announced, as a function of the clue tree, the table and the
remaining input (whose head is what `fgets` stores in `entrada`).  The listing
printed first is `exibirPistas`. -/
def verificarSuspeitoFinal (w : Nat) (pistas : PistaNode) (ht : Option HashTable) :
    List CStr → Julgamento
  | [] => .entradaInvalida
  | linha :: _ =>
    let entrada := rstrip linha
    match entrada with
    | [] => .nenhumNome
    | _ :: _ =>
      let ctx := percorrerInOrder pistas (contarSeDoAcusado w)
        { ht := ht, acusado := entrada, total := 0 }
      if ctx.total ≥ 2 then .culpado ctx.total entrada
      else .insuficiente ctx.total entrada

/-- Sum of the counts of the listed entries whose text is associated, in the
table, with exactly the accused name; the other entries add nothing. -/
def somaDoAcusado (w : Nat) (ht : Option HashTable) (acusado : CStr)
    (l : List (CStr × Int)) : Int :=
  ((l.filter (fun e => decide (encontrarSuspeito w ht (some e.1) = some acusado))).map
    (fun e => e.2)).sum

/-- The entries of a clue tree, read off its nodes: left subtree, node, right
subtree. -/
def listar : PistaNode → List (CStr × Int)
  | .nil => []
  | .node texto count esq dir => listar esq ++ (texto, count) :: listar dir

/-- The tally of the specification: the sum of the counts of the entries of
the tree whose text is associated, in the table, with exactly the accused
name. -/
def tally (w : Nat) (pistas : PistaNode) (ht : Option HashTable) (acusado : CStr) : Int :=
  somaDoAcusado w ht acusado (listar pistas)

/-! ## The counters as the 32-bit `int` of the source -/

/-- The constant `INT_MAX` of a 32-bit `int`. -/
def INT_MAX : Int := 2147483647

/-- The constant `INT_MIN` of a 32-bit `int`. -/
def INT_MIN : Int := -2147483648

/-- The value that a 32-bit `int` holds for the arithmetic result `i`: `i`
itself when it lies between `INT_MIN` and `INT_MAX`, its two's-complement
wrap-around otherwise (what the compiled programs do on overflow, which the C
standard leaves undefined). -/
def int32 (i : Int) : Int := (i + 2147483648) % 4294967296 - 2147483648

/-- Function `inserirPista` (A5_detetiveMestre.c, 154-181;
A5_detetiveAventureiro.c, 85-114) with the field `count` as the 32-bit `int`
it is: `(*raiz)->count++` is reduced by `int32`. -/
def inserirPistaInt : PistaNode → Option CStr → PistaNode
  | raiz, none => raiz
  | raiz, some [] => raiz
  | .nil, some (c :: s) => .node (c :: s) 1 .nil .nil
  | .node texto count esq dir, some (c :: s) =>
    if strcmp (c :: s) texto = 0 then .node texto (int32 (count + 1)) esq dir
    else if strcmp (c :: s) texto < 0 then
      .node texto count (inserirPistaInt esq (some (c :: s))) dir
    else
      .node texto count esq (inserirPistaInt dir (some (c :: s)))

/-- The clue tree after a sequence of `inserirPista` calls on an empty tree,
with `int` counts. -/
def aposPistasInt (textos : List (Option CStr)) : PistaNode :=
  textos.foldl inserirPistaInt .nil

/-- Function `contarSeDoAcusado` (A5_detetiveMestre.c, 327-333) with the field
`total` as the 32-bit `int` it is: `ctx->total += n->count` is reduced by
`int32`. -/
def contarSeDoAcusadoInt (w : Nat) : PistaNode → ContadorSuspeitoCtx → ContadorSuspeitoCtx
  | .nil, ctx => ctx
  | .node texto count _ _, ctx =>
    match encontrarSuspeito w ctx.ht (some texto) with
    | some sus =>
      if strcmp sus ctx.acusado = 0 then { ctx with total := int32 (ctx.total + count) }
      else ctx
    | none => ctx

/-- The table after a sequence of `inserirNaHash` calls on a fresh table. -/
def aposInsercoes (w capacidade : Nat) (ops : List (Option CStr × Option CStr)) :
    Option HashTable :=
  ops.foldl (fun ht op => inserirNaHash w ht op.1 op.2) (some (criarHash capacidade))

/-- All chain nodes of a table, bucket after bucket. -/
def todosNos (ht : HashTable) : List HashNode := ht.buckets.flatten

/-- The clue tree after a sequence of `inserirPista` calls on an empty tree. -/
def aposPistas (textos : List (Option CStr)) : PistaNode :=
  textos.foldl inserirPista .nil

/-! ## Exploration with clues (A5_detetiveAventureiro.c) -/

namespace Aventureiro

/-- A pointer to a `Sala` of this program: `nil` is `NULL`. -/
inductive Sala where
  | nil
  | node (nome : CStr) (pista : Option CStr) (esq dir : Sala)
deriving DecidableEq

/-- Function `criarSala` (A5_detetiveAventureiro.c, 45-71): an empty clue is
stored as `NULL`. -/
def criarSala (nome : CStr) : Option CStr → Sala
  | some (c :: p) => .node nome (some (c :: p)) .nil .nil
  | _ => .node nome none .nil .nil

/-- The assignments `s->esq = e; s->dir = d` of `montarMapa`. -/
def ligar : Sala → Sala → Sala → Sala
  | .nil, _, _ => .nil
  | .node nome pista _ _, e, d => .node nome pista e d

/-- Function `montarMapa` (A5_detetiveAventureiro.c, 226-256). -/
def montarMapa : Sala :=
  let adega := criarSala (lit "Adega") (some (lit "Taça quebrada"))
  let deposito := criarSala (lit "Deposito") none
  let despensa := criarSala (lit "Despensa") (some (lit "Rastro de açúcar"))
  let estufa := criarSala (lit "Estufa") (some (lit "Terra revolvida"))
  let escritorio := criarSala (lit "Escritorio") (some (lit "Janela entreaberta"))
  let biblio := ligar (criarSala (lit "Biblioteca") (some (lit "Livro fora do lugar")))
    adega deposito
  let cozinha := ligar (criarSala (lit "Cozinha") none) .nil despensa
  let jardim := ligar (criarSala (lit "Jardim") (some (lit "Luva perdida"))) .nil estufa
  let estar := ligar (criarSala (lit "Sala de Estar") none) biblio cozinha
  let corredor := ligar (criarSala (lit "Corredor") (some (lit "Perfume forte")))
    escritorio jardim
  ligar (criarSala (lit "Hall de Entrada") (some (lit "Pegadas de lama"))) estar corredor

/-- The scan of `lerOpcao` over the buffer: first non-space byte, lower-cased;
the letter s when there is none. -/
def primeiraLetra : CStr → Nat
  | [] => 115
  | c :: resto => if !isspace c then tolower c else primeiraLetra resto

/-- Function `lerOpcao` (A5_detetiveAventureiro.c, 143-151), on the result of
`fgets` (`none` at end of input). -/
def lerOpcao : Option CStr → Nat
  | none => 115
  | some linha => primeiraLetra linha

/-- The clue collection done on entering a room: `if (atual->pista)
inserirPista(pistas, atual->pista)`. -/
def coletar : Sala → PistaNode → PistaNode
  | .nil, pistas => pistas
  | .node _ none _ _, pistas => pistas
  | .node _ (some p) _ _, pistas => inserirPista pistas (some p)

/-- Left child of a room. -/
def Sala.esq : Sala → Sala
  | .nil => .nil
  | .node _ _ e _ => e

/-- Right child of a room. -/
def Sala.dir : Sala → Sala
  | .nil => .nil
  | .node _ _ _ d => d

/-- One pass through the body of the `while (1)` loop of
`explorarSalasComPistas` after the command `op` was read: `none` is `break`,
otherwise the current room and the clue tree at the end of the pass. -/
def passo (atual : Sala) (pistas : PistaNode) (op : Nat) : Option (Sala × PistaNode) :=
  if op = 115 then none
  else if op = 101 then
    if atual.esq = .nil then some (atual, pistas)
    else some (atual.esq, coletar atual.esq pistas)
  else if op = 100 then
    if atual.dir = .nil then some (atual, pistas)
    else some (atual.dir, coletar atual.dir pistas)
  else some (atual, pistas)

/-- The `while (1)` loop of `explorarSalasComPistas`: final room, final clue
tree and input left.  At end of input `lerOpcao` gives the letter s and the
loop breaks. -/
def laco : Sala → PistaNode → List CStr → Sala × PistaNode × List CStr
  | atual, pistas, [] => (atual, pistas, [])
  | atual, pistas, linha :: resto =>
    match passo atual pistas (lerOpcao (some linha)) with
    | none => (atual, pistas, resto)
    | some (a, p) => laco a p resto

/-- Function `explorarSalasComPistas` (A5_detetiveAventureiro.c, 155-210): the
clue tree after the exploration. -/
def explorarSalasComPistas : Sala → PistaNode → List CStr → PistaNode
  | .nil, pistas, _ => pistas
  | hall, pistas, entrada => (laco hall (coletar hall pistas) entrada).2.1

end Aventureiro

/-! ## Observations on clue trees used to state properties -/

/-- The texts of a clue tree in in-order. -/
def textosDe (r : PistaNode) : List CStr := (listar r).map Prod.fst

/-- The search-tree ordering at every node: texts of the left subtree sort
strictly before the node's text, texts of the right subtree strictly after. -/
def Ordenada : PistaNode → Prop
  | .nil => True
  | .node texto _ esq dir =>
    Ordenada esq ∧ Ordenada dir ∧
      (∀ y ∈ textosDe esq, antes y texto) ∧ (∀ y ∈ textosDe dir, antes texto y)

/-- Sum of the counts of all entries of a clue tree. -/
def somaCounts : PistaNode → Int
  | .nil => 0
  | .node _ count esq dir => somaCounts esq + count + somaCounts dir

/-- A text made only of whitespace characters (the empty text included). -/
def soEspacos (t : CStr) : Prop := ∀ c ∈ t, isspace c = true

/-! ## Observations on hash tables used to state properties -/

/-- The keys of all chain nodes of a table, bucket after bucket. -/
def chaves (ht : HashTable) : List CStr := (todosNos ht).map HashNode.chavePista

/-- A table whose bucket array has `capacidade` cells, as `criarHash` builds. -/
def BemFormada (ht : HashTable) : Prop := ht.buckets.length = ht.capacidade

/-- The node `no` with suspect `v` in place of its own when its key is `k`. -/
def trocarSuspeito (k v : CStr) (no : HashNode) : HashNode :=
  if no.chavePista = k then { no with suspeito := v } else no

/-- Structural invariant of a table: the bucket array has `capacidade` cells,
every node sits in the bucket its key hashes to, and no chain holds a key
twice. -/
def Integra (w : Nat) (ht : HashTable) : Prop :=
  ht.buckets.length = ht.capacidade ∧
  (∀ i no, no ∈ ht.buckets.getD i [] → djb2 w no.chavePista % ht.capacidade = i) ∧
  (∀ i, ((ht.buckets.getD i []).map HashNode.chavePista).Nodup)

/-! ## Concrete data for worked instances -/

/-- A table of 101 buckets (the capacity used by `main`) with three
associations, on a 64-bit `unsigned long`. -/
def tabelaExemplo : Option HashTable :=
  aposInsercoes 64 101
    [(some (lit "Pegadas de lama"), some (lit "Jardineiro")),
     (some (lit "Perfume forte"), some (lit "Srta. Violeta")),
     (some (lit "Terra revolvida"), some (lit "Jardineiro"))]

/-- A clue tree with "Pegadas de lama" collected twice and three other clues
once, the last one absent from `tabelaExemplo`. -/
def pistasExemplo : PistaNode :=
  aposPistas
    [some (lit "Pegadas de lama"), some (lit "Terra revolvida"),
     some (lit "Perfume forte"), some (lit "Pegadas de lama"),
     some (lit "Taça com batom")]

/-- A table of one bucket holding three associations. -/
def tabelaPequena : HashTable :=
  { capacidade := 1,
    buckets := [[⟨lit "Pegadas de lama", lit "Jardineiro"⟩,
      ⟨lit "Terra revolvida", lit "Jardineiro"⟩,
      ⟨lit "Perfume forte", lit "Srta. Violeta"⟩]] }

/-! ## Reading a command from standard input -/

/-- The bytes that `fgets` takes from the unread input when at most `k` bytes
fit: it stops after a newline, at the end of the input, or when `k` bytes are
taken; the second component is the input left unread. -/
def fgetsLer : Nat → List Nat → List Nat × List Nat
  | 0, stdin => ([], stdin)
  | _ + 1, [] => ([], [])
  | k + 1, c :: stdin =>
    if c = 10 then ([c], stdin)
    else ((fgetsLer k stdin).1.cons c, (fgetsLer k stdin).2)

/-- The library function `fgets (buf, n, stdin)` on the unread bytes of the
input: `none` is `NULL`, returned at end of input; otherwise the string stored
in `buf` and the input left unread.  At most `n - 1` bytes are taken; the
string in `buf` ends at the first NUL byte among them, if there is one. -/
def fgets (n : Nat) : List Nat → Option (CStr × List Nat)
  | [] => none
  | c :: stdin =>
    some (((fgetsLer (n - 1) (c :: stdin)).1).takeWhile (fun b => b != 0),
      (fgetsLer (n - 1) (c :: stdin)).2)

/-- The next line of the unread input: its bytes up to and including the first
newline, or all of them when there is no newline. -/
def proximaLinha : List Nat → List Nat
  | [] => []
  | c :: stdin => if c = 10 then [c] else c :: proximaLinha stdin

/-- The first non-whitespace character of a text, when there is one. -/
def primeiroNaoEspaco : List Nat → Option Nat
  | [] => none
  | c :: t => if isspace c then primeiroNaoEspaco t else some c

/-- The command that a text stands for: the lower-case form of its first
non-whitespace character, the letter s when it has none. -/
def opcaoDe (texto : List Nat) : Nat :=
  match primeiroNaoEspaco texto with
  | some c => tolower c
  | none => 115

/-! ## Exploration and map of the final chapter (A5_detetiveMestre.c) -/

namespace Mestre

/-- A pointer to a `Sala` of this program: `nil` is `NULL`. -/
inductive Sala where
  | nil
  | node (nome : CStr) (esq dir : Sala)
deriving DecidableEq

/-- Field `nome` of a room. -/
def Sala.nome : Sala → CStr
  | .nil => []
  | .node n _ _ => n

/-- Field `esq` of a room. -/
def Sala.esq : Sala → Sala
  | .nil => .nil
  | .node _ e _ => e

/-- Field `dir` of a room. -/
def Sala.dir : Sala → Sala
  | .nil => .nil
  | .node _ _ d => d

/-- Function `criarSala` (A5_detetiveMestre.c, 213-227). -/
def criarSala (nome : CStr) : Sala := .node nome .nil .nil

/-- The assignments `s->esq = e; s->dir = d` of `montarMapa`. -/
def ligar : Sala → Sala → Sala → Sala
  | .nil, _, _ => .nil
  | .node nome _ _, e, d => .node nome e d

/-- Function `montarMapa` (A5_detetiveMestre.c, 380-401). -/
def montarMapa : Sala :=
  let adega := criarSala (lit "Adega")
  let deposito := criarSala (lit "Deposito")
  let despensa := criarSala (lit "Despensa")
  let estufa := criarSala (lit "Estufa")
  let escritorio := criarSala (lit "Escritorio")
  let biblio := ligar (criarSala (lit "Biblioteca")) adega deposito
  let cozinha := ligar (criarSala (lit "Cozinha")) .nil despensa
  let jardim := ligar (criarSala (lit "Jardim")) .nil estufa
  let estar := ligar (criarSala (lit "Sala de Estar")) biblio cozinha
  let corredor := ligar (criarSala (lit "Corredor")) escritorio jardim
  ligar (criarSala (lit "Hall de Entrada")) estar corredor

/-- Function `pistaDaSala` (A5_detetiveMestre.c, 238-253); `none` is `NULL`. -/
def pistaDaSala (nomeSala : CStr) : Option CStr :=
  if strcmp nomeSala (lit "Hall de Entrada") = 0 then some (lit "Pegadas de lama")
  else if strcmp nomeSala (lit "Sala de Estar") = 0 then some (lit "Almofada fora do lugar")
  else if strcmp nomeSala (lit "Corredor") = 0 then some (lit "Perfume forte")
  else if strcmp nomeSala (lit "Biblioteca") = 0 then some (lit "Livro raro deslocado")
  else if strcmp nomeSala (lit "Cozinha") = 0 then none
  else if strcmp nomeSala (lit "Escritorio") = 0 then some (lit "Janela entreaberta")
  else if strcmp nomeSala (lit "Jardim") = 0 then some (lit "Luva de couro")
  else if strcmp nomeSala (lit "Adega") = 0 then some (lit "Taça com batom")
  else if strcmp nomeSala (lit "Deposito") = 0 then none
  else if strcmp nomeSala (lit "Despensa") = 0 then some (lit "Rastro de acucar")
  else if strcmp nomeSala (lit "Estufa") = 0 then some (lit "Terra revolvida")
  else none

/-- Function `popularMapaPistas` (A5_detetiveMestre.c, 406-428). -/
def popularMapaPistas (w : Nat) (ht : Option HashTable) : Option HashTable :=
  let ht := inserirNaHash w ht (some (lit "Pegadas de lama")) (some (lit "Jardineiro"))
  let ht := inserirNaHash w ht (some (lit "Almofada fora do lugar")) (some (lit "Sra. Branca"))
  let ht := inserirNaHash w ht (some (lit "Perfume forte")) (some (lit "Srta. Violeta"))
  let ht := inserirNaHash w ht (some (lit "Livro raro deslocado"))
    (some (lit "Professor Carvalho"))
  let ht := inserirNaHash w ht (some (lit "Janela entreaberta")) (some (lit "Sr. Mostarda"))
  let ht := inserirNaHash w ht (some (lit "Luva de couro")) (some (lit "Sr. Mostarda"))
  let ht := inserirNaHash w ht (some (lit "Taca com batom")) (some (lit "Srta. Violeta"))
  let ht := inserirNaHash w ht (some (lit "Rastro de acucar")) (some (lit "Dra. Orquidea"))
  inserirNaHash w ht (some (lit "Terra revolvida")) (some (lit "Jardineiro"))

/-- The table of `main`: `criarHash(101)` then `popularMapaPistas`. -/
def tabelaDoJogo (w : Nat) : Option HashTable :=
  popularMapaPistas w (some (criarHash 101))

/-- The scan of `lerOpcao` over the buffer: first non-space byte, lower-cased;
the letter s when there is none. -/
def primeiraLetra : CStr → Nat
  | [] => 115
  | c :: resto => if !isspace c then tolower c else primeiraLetra resto

/-- Function `lerOpcao` (A5_detetiveMestre.c, 258-265), on the result of
`fgets` (`none` at end of input). -/
def lerOpcao : Option CStr → Nat
  | none => 115
  | some buf => primeiraLetra buf

/-- The clue collection at the top of the `while (1)` loop of `explorarSalas`:
`p = pistaDaSala(atual->nome); if (p && p[0] != 0) inserirPista(pistas, p)`. -/
def coletar (atual : Sala) (pistas : PistaNode) : PistaNode :=
  match pistaDaSala atual.nome with
  | some (c :: p) => inserirPista pistas (some (c :: p))
  | _ => pistas

/-- The branch on the command read in the loop of `explorarSalas`: `none` is
`break`, otherwise the room that is current when the loop starts over. -/
def passo (atual : Sala) (op : Nat) : Option Sala :=
  if op = 115 then none
  else if op = 101 then
    if atual.esq = .nil then some atual else some atual.esq
  else if op = 100 then
    if atual.dir = .nil then some atual else some atual.dir
  else some atual

/-- The `while (1)` loop of `explorarSalas`, entered at its top with `atual`
current: final room, final clue tree and input left.  Every pass first
collects the clue of the current room, then reads a command; at end of input
`lerOpcao` gives the letter s and the loop breaks. -/
def laco : Sala → PistaNode → List CStr → Sala × PistaNode × List CStr
  | atual, pistas, [] => (atual, coletar atual pistas, [])
  | atual, pistas, linha :: resto =>
    match passo atual (lerOpcao (some linha)) with
    | none => (atual, coletar atual pistas, resto)
    | some a => laco a (coletar atual pistas) resto

/-- Function `explorarSalas` (A5_detetiveMestre.c, 270-316): the clue tree
after the exploration.  The table only selects the notice printed with each
clue. -/
def explorarSalas : Sala → PistaNode → Option HashTable → List CStr → PistaNode
  | .nil, pistas, _, _ => pistas
  | hall, pistas, _, entrada => (laco hall pistas entrada).2.1

/-- The rooms walked when every command of `ops` is a move to an existing
child, the starting room first; `none` when some command is not such a move. -/
def percurso : Sala → List Nat → Option (List Sala)
  | atual, [] => some [atual]
  | atual, op :: ops =>
    if op = 101 ∧ atual.esq ≠ .nil then (percurso atual.esq ops).map (fun l => atual :: l)
    else if op = 100 ∧ atual.dir ≠ .nil then
      (percurso atual.dir ops).map (fun l => atual :: l)
    else none

end Mestre

/-! ## Exploration and map of the first chapter (A5_detetiveNovato.c) -/

namespace Novato

/-- A pointer to a `Sala` of this program: `nil` is `NULL`. -/
inductive Sala where
  | nil
  | node (nome : CStr) (esq dir : Sala)
deriving DecidableEq

/-- Field `nome` of a room. -/
def Sala.nome : Sala → CStr
  | .nil => []
  | .node n _ _ => n

/-- Field `esq` of a room. -/
def Sala.esq : Sala → Sala
  | .nil => .nil
  | .node _ e _ => e

/-- Field `dir` of a room. -/
def Sala.dir : Sala → Sala
  | .nil => .nil
  | .node _ _ d => d

/-- Function `criarSala` (A5_detetiveNovato.c, 36-50). -/
def criarSala (nome : CStr) : Sala := .node nome .nil .nil

/-- The assignments `s->esq = e; s->dir = d` of `montarMapa`. -/
def ligar : Sala → Sala → Sala → Sala
  | .nil, _, _ => .nil
  | .node nome _ _, e, d => .node nome e d

/-- Function `montarMapa` (A5_detetiveNovato.c, 165-196). -/
def montarMapa : Sala :=
  let adega := criarSala (lit "Adega")
  let deposito := criarSala (lit "Deposito")
  let despensa := criarSala (lit "Despensa")
  let estufa := criarSala (lit "Estufa")
  let escritorio := criarSala (lit "Escritorio")
  let biblio := ligar (criarSala (lit "Biblioteca")) adega deposito
  let cozinha := ligar (criarSala (lit "Cozinha")) .nil despensa
  let jardim := ligar (criarSala (lit "Jardim")) .nil estufa
  let estar := ligar (criarSala (lit "Sala de Estar")) biblio cozinha
  let corredor := ligar (criarSala (lit "Corredor")) escritorio jardim
  ligar (criarSala (lit "Hall de entrada")) estar corredor

/-- The scan of `lerOpcao` over the buffer: first non-space byte, lower-cased;
the letter s when there is none. -/
def primeiraLetra : CStr → Nat
  | [] => 115
  | c :: resto => if !isspace c then tolower c else primeiraLetra resto

/-- Function `lerOpcao` (A5_detetiveNovato.c, 81-90), on the result of `fgets`
(`none` at end of input). -/
def lerOpcao : Option CStr → Nat
  | none => 115
  | some linha => primeiraLetra linha

/-- The constant `MAX_TRAJETO` of `explorarSalas`. -/
def MAX_TRAJETO : Nat := 128

/-- What an exploration leaves behind: the trail `trajeto[0..passos)` of room
names, the names of the rooms for which `mostrarOpcoes` was called (each call
is followed by one `lerOpcao`), and the input left unread. -/
structure Exploracao where
  trajeto : List CStr
  consultas : List CStr
  resto : List CStr
deriving DecidableEq

/-- The room that is current after the branch on the command `op`:
the child asked for when it exists, the same room otherwise. -/
def mover (atual : Sala) (op : Nat) : Sala :=
  if op = 101 then
    if atual.esq ≠ .nil then atual.esq else atual
  else if op = 100 then
    if atual.dir ≠ .nil then atual.dir else atual
  else atual

/-- The statement `if (passos < MAX_TRAJETO) trajeto[passos++] = atual->nome`. -/
def registrar (atual : Sala) (trajeto : List CStr) : List CStr :=
  if trajeto.length < MAX_TRAJETO then trajeto ++ [atual.nome] else trajeto

/-- The `while (atual)` loop of `explorarSalas`, entered at its top with
`atual` current (never `NULL`) and the trail recorded so far. -/
def laco : Sala → List CStr → List CStr → Exploracao
  | atual, trajeto, [] =>
    if atual.esq = .nil ∧ atual.dir = .nil then
      { trajeto := registrar atual trajeto, consultas := [], resto := [] }
    else
      { trajeto := registrar atual trajeto, consultas := [atual.nome], resto := [] }
  | atual, trajeto, linha :: resto =>
    if atual.esq = .nil ∧ atual.dir = .nil then
      { trajeto := registrar atual trajeto, consultas := [], resto := linha :: resto }
    else if lerOpcao (some linha) = 115 then
      { trajeto := registrar atual trajeto, consultas := [atual.nome], resto := resto }
    else
      { trajeto := (laco (mover atual (lerOpcao (some linha)))
            (registrar atual trajeto) resto).trajeto,
        consultas := atual.nome ::
          (laco (mover atual (lerOpcao (some linha))) (registrar atual trajeto) resto).consultas,
        resto := (laco (mover atual (lerOpcao (some linha)))
            (registrar atual trajeto) resto).resto }

/-- Function `explorarSalas` (A5_detetiveNovato.c, 94-149). -/
def explorarSalas : Sala → List CStr → Exploracao
  | .nil, entrada => { trajeto := [], consultas := [], resto := entrada }
  | raiz, entrada => laco raiz [] entrada

/-- All rooms of a map, the root first. -/
def salasDe : Sala → List Sala
  | .nil => []
  | .node n e d => .node n e d :: (salasDe e ++ salasDe d)

end Novato

/-! ## The hash as a polynomial -/

/-- The polynomial hash of the specification: `h := (h * 33 + byte) mod 2 ^ w`
over the bytes, from `h`. -/
def hashPolinomial (w : Nat) (h : Nat) (s : CStr) : Nat :=
  s.foldl (fun h c => (h * 33 + c) % 2 ^ w) h

/-- Sum of the counts of the listed entries whose text is `x`. -/
def contagem (l : List (CStr × Int)) (x : CStr) : Int :=
  ((l.filter (fun e => decide (e.1 = x))).map Prod.snd).sum

/-- Number of times the text `x` occurs in a sequence of arguments. -/
def vezes (textos : List (Option CStr)) (x : CStr) : Nat :=
  (textos.filter (fun o => decide (o = some x))).length

/-! ## The table of the game as a list of associations -/

/-- The suspect that a sequence of associations leaves for the key `k`: the
one of the last association registered for `k`, if any. -/
def associado (ops : List (CStr × CStr)) (k : CStr) : Option CStr :=
  ops.foldl (fun r p => if p.1 = k then some p.2 else r) none

/-- The suspect looked up by `f` for a collected clue; an absent or empty clue
is not collected and has none. -/
def suspeitoDaPista (f : CStr → Option CStr) : Option CStr → Option CStr
  | some (c :: s) => f (c :: s)
  | _ => none

namespace Mestre

/-- The calls of `inserirNaHash` in `popularMapaPistas`, in order. -/
def associacoesDoJogo : List (CStr × CStr) :=
  [(lit "Pegadas de lama", lit "Jardineiro"),
   (lit "Almofada fora do lugar", lit "Sra. Branca"),
   (lit "Perfume forte", lit "Srta. Violeta"),
   (lit "Livro raro deslocado", lit "Professor Carvalho"),
   (lit "Janela entreaberta", lit "Sr. Mostarda"),
   (lit "Luva de couro", lit "Sr. Mostarda"),
   (lit "Taca com batom", lit "Srta. Violeta"),
   (lit "Rastro de acucar", lit "Dra. Orquidea"),
   (lit "Terra revolvida", lit "Jardineiro")]

/-- All rooms of a map, the root first. -/
def salasDe : Sala → List Sala
  | .nil => []
  | .node n e d => .node n e d :: (salasDe e ++ salasDe d)

/-- All walks from the root of a map by moves to existing children: the
commands (101 is e, 100 is d) and the rooms walked. -/
def todosPercursos : Sala → List (List Nat × List Sala)
  | .nil => []
  | .node n e d =>
    ([], [.node n e d]) ::
      ((todosPercursos e).map (fun p => (101 :: p.1, .node n e d :: p.2)) ++
        (todosPercursos d).map (fun p => (100 :: p.1, .node n e d :: p.2)))

/-- The suspects that the table of the game associates with the clues
collected in the rooms walked, in visit order. -/
def suspeitosDoPercurso (salas : List Sala) : List CStr :=
  (salas.map (fun s => pistaDaSala s.nome)).filterMap
    (suspeitoDaPista (associado associacoesDoJogo))

end Mestre

/-! ## Facts about `strcmp` -/

theorem strcmp_self (s : CStr) : strcmp s s = 0 := by
  induction s with
  | nil => rfl
  | cons a s ih => simp [strcmp, ih]

theorem strcmp_eq_zero_iff (s t : CStr) : strcmp s t = 0 ↔ s = t := by
  induction s generalizing t with
  | nil => cases t <;> simp [strcmp]
  | cons a s ih =>
    cases t with
    | nil => simp [strcmp]
    | cons b t =>
      simp only [strcmp]
      by_cases hab : a = b
      · simp [hab, ih]
      · by_cases hlt : a < b <;> simp [hab, hlt]

theorem strcmp_neg_iff_pos (s t : CStr) : strcmp s t < 0 ↔ 0 < strcmp t s := by
  induction s generalizing t with
  | nil => cases t <;> simp [strcmp]
  | cons a s ih =>
    cases t with
    | nil => simp [strcmp]
    | cons b t =>
      simp only [strcmp]
      by_cases hab : a = b
      · subst hab
        simp [ih]
      · have hba : ¬ b = a := fun h => hab h.symm
        by_cases hlt : a < b
        · have : ¬ b < a := by omega
          simp [hab, hba, hlt, this]
        · have : b < a := by omega
          simp [hab, hba, hlt, this]

theorem antes_irrefl (a : CStr) : ¬ antes a a := by
  simp [antes, strcmp_self]

theorem antes_trans {a b c : CStr} (hab : antes a b) (hbc : antes b c) : antes a c := by
  unfold antes at *
  induction a generalizing b c with
  | nil =>
    cases c with
    | nil => cases b <;> simp [strcmp] at hab hbc
    | cons z c => simp [strcmp]
  | cons x a ih =>
    cases b with
    | nil => simp [strcmp] at hab
    | cons y b =>
      cases c with
      | nil => simp [strcmp] at hbc
      | cons z c =>
        simp only [strcmp] at hab hbc ⊢
        by_cases hxy : x = y
        · subst hxy
          by_cases hxz : x = z
          · subst hxz
            simp only [if_true] at hab hbc ⊢
            exact ih hab hbc
          · simp only [hxz, if_false] at hbc ⊢
            exact hbc
        · simp only [hxy, if_false] at hab
          have hlt : x < y := by
            by_contra h
            simp [h] at hab
          by_cases hyz : y = z
          · subst hyz
            simp [hxy, hlt]
          · simp only [hyz, if_false] at hbc
            have hlt2 : y < z := by
              by_contra h
              simp [h] at hbc
            have h1 : ¬ x = z := by omega
            have h2 : x < z := by omega
            simp [h1, h2]

theorem antes_of_not (a b : CStr) (h0 : strcmp a b ≠ 0) (h1 : ¬ strcmp a b < 0) :
    antes b a := by
  unfold antes
  rw [strcmp_neg_iff_pos]
  omega

/-! ## In-order traversal -/

theorem percorrer_anotar (r : PistaNode) (acc : List (CStr × Int)) :
    percorrerInOrder r anotar acc = acc ++ listar r := by
  induction r generalizing acc with
  | nil => simp [percorrerInOrder, listar]
  | node t c l d ihl ihd =>
    simp [percorrerInOrder, listar, anotar, ihl, ihd]

theorem emOrdem_eq_listar (r : PistaNode) : emOrdem r = listar r := by
  simp [emOrdem, percorrer_anotar]

theorem exibirPistas_eq (r : PistaNode) :
    exibirPistas r = (listar r).map (fun e => linhaDaPista e.1 e.2) := by
  induction r with
  | nil => rfl
  | node t c l d ihl ihd => simp [exibirPistas, listar, ihl, ihd]

theorem textosDe_node (t : CStr) (c : Int) (l d : PistaNode) :
    textosDe (.node t c l d) = textosDe l ++ t :: textosDe d := by
  simp [textosDe, listar]

/-! ## Insertion keeps the search-tree ordering -/

theorem mem_textosDe_inserir (r : PistaNode) (t : CStr) (y : CStr)
    (hy : y ∈ textosDe (inserirPista r (some t))) : y = t ∨ y ∈ textosDe r := by
  induction r with
  | nil =>
    cases t with
    | nil => simp [inserirPista, textosDe, listar] at hy
    | cons c s =>
      simp [inserirPista, textosDe, listar] at hy
      exact Or.inl hy
  | node x n l d ihl ihd =>
    cases t with
    | nil => exact Or.inr (by simpa [inserirPista] using hy)
    | cons c s =>
      simp only [inserirPista] at hy
      split at hy
      · exact Or.inr (by simpa [textosDe_node] using hy)
      · split at hy
        · simp only [textosDe_node, List.mem_append, List.mem_cons] at hy ⊢
          rcases hy with h | h | h
          · rcases ihl h with h | h
            · exact Or.inl h
            · exact Or.inr (Or.inl h)
          · exact Or.inr (Or.inr (Or.inl h))
          · exact Or.inr (Or.inr (Or.inr h))
        · simp only [textosDe_node, List.mem_append, List.mem_cons] at hy ⊢
          rcases hy with h | h | h
          · exact Or.inr (Or.inl h)
          · exact Or.inr (Or.inr (Or.inl h))
          · rcases ihd h with h | h
            · exact Or.inl h
            · exact Or.inr (Or.inr (Or.inr h))

theorem ordenada_inserir (r : PistaNode) (o : Option CStr) (h : Ordenada r) :
    Ordenada (inserirPista r o) := by
  cases o with
  | none => cases r <;> simpa [inserirPista] using h
  | some t =>
    induction r with
    | nil =>
      cases t with
      | nil => simpa [inserirPista] using h
      | cons c s => simp [inserirPista, Ordenada, textosDe, listar]
    | node x n l d ihl ihd =>
      cases t with
      | nil => simpa [inserirPista] using h
      | cons c s =>
        obtain ⟨hl, hd, hlt, hgt⟩ := h
        simp only [inserirPista]
        split
        · exact ⟨hl, hd, hlt, hgt⟩
        · rename_i hne
          split
          · rename_i hneg
            refine ⟨ihl hl, hd, ?_, hgt⟩
            intro y hy
            rcases mem_textosDe_inserir l (c :: s) y hy with h | h
            · rw [h]
              exact hneg
            · exact hlt y h
          · rename_i hnneg
            refine ⟨hl, ihd hd, hlt, ?_⟩
            intro y hy
            rcases mem_textosDe_inserir d (c :: s) y hy with h | h
            · rw [h]
              exact antes_of_not _ _ hne hnneg
            · exact hgt y h

theorem ordenada_aposPistas_aux (textos : List (Option CStr)) (r : PistaNode)
    (h : Ordenada r) : Ordenada (textos.foldl inserirPista r) := by
  induction textos generalizing r with
  | nil => exact h
  | cons o os ih => exact ih _ (ordenada_inserir r o h)

theorem ordenada_aposPistas (textos : List (Option CStr)) :
    Ordenada (aposPistas textos) :=
  ordenada_aposPistas_aux textos .nil trivial

theorem ordenada_pairwise (r : PistaNode) (h : Ordenada r) :
    (textosDe r).Pairwise antes := by
  induction r with
  | nil => simp [textosDe, listar]
  | node x n l d ihl ihd =>
    obtain ⟨hl, hd, hlt, hgt⟩ := h
    rw [textosDe_node, List.pairwise_append]
    refine ⟨ihl hl, ?_, ?_⟩
    · rw [List.pairwise_cons]
      exact ⟨hgt, ihd hd⟩
    · intro a ha b hb
      rcases List.mem_cons.mp hb with h | h
      · rw [h]
        exact hlt a ha
      · exact antes_trans (hlt a ha) (hgt b h)

theorem pairwise_antes_nodup (l : List CStr) (h : l.Pairwise antes) : l.Nodup := by
  unfold List.Nodup
  refine h.imp ?_
  intro a b hab heq
  rw [heq] at hab
  exact antes_irrefl b hab

/-! ## Claims -/

/-- C1: for every finite sequence of texts (null and empty ones included),
the tree obtained by inserting them one by one with `inserirPista` into the
empty tree is visited by `percorrerInOrder` in strictly ascending `strcmp`
order of the texts, no text occurs in two entries, and `exibirPistas` prints
one line per visited entry in that same order. -/
theorem C1_inorder_strictly_ascending (textos : List (Option CStr)) :
    ((emOrdem (aposPistas textos)).map Prod.fst).Pairwise (fun a b => strcmp a b < 0) ∧
    ((emOrdem (aposPistas textos)).map Prod.fst).Nodup ∧
    exibirPistas (aposPistas textos) =
      (emOrdem (aposPistas textos)).map (fun e => linhaDaPista e.1 e.2) := by
  have hp := ordenada_pairwise _ (ordenada_aposPistas textos)
  rw [emOrdem_eq_listar]
  exact ⟨hp, pairwise_antes_nodup _ hp, exibirPistas_eq _⟩

theorem somaCounts_inserir (r : PistaNode) (c : Nat) (t : CStr) :
    somaCounts (inserirPista r (some (c :: t))) = somaCounts r + 1 := by
  induction r with
  | nil => simp [inserirPista, somaCounts]
  | node x n l d ihl ihd =>
    simp only [inserirPista]
    split
    · simp only [somaCounts]
      omega
    · split
      · simp only [somaCounts, ihl]
        omega
      · simp only [somaCounts, ihd]
        omega

theorem aposPistas_snoc (textos : List (Option CStr)) (o : Option CStr) :
    aposPistas (textos ++ [o]) = inserirPista (aposPistas textos) o := by
  simp [aposPistas, List.foldl_append]

/-! ## The `int` counter -/

theorem int32_of_range (i : Int) (h1 : -2147483648 ≤ i) (h2 : i ≤ 2147483647) :
    int32 i = i := by
  unfold int32
  omega

theorem int32_int32_add (a b : Int) : int32 (int32 a + b) = int32 (a + b) := by
  unfold int32
  omega

theorem int32_idem (a : Int) : int32 (int32 a) = int32 a := by
  unfold int32
  omega

theorem aposPistasInt_snoc (textos : List (Option CStr)) (o : Option CStr) :
    aposPistasInt (textos ++ [o]) = inserirPistaInt (aposPistasInt textos) o := by
  simp [aposPistasInt, List.foldl_append]

theorem aposPistasInt_replicate (c : Nat) (s : CStr) (N : Nat) (hN : 1 ≤ N) :
    aposPistasInt (List.replicate N (some (c :: s))) =
      .node (c :: s) (int32 (N : Int)) .nil .nil := by
  induction N with
  | zero => omega
  | succ n ih =>
    rcases Nat.eq_zero_or_pos n with h0 | hpos
    · subst h0
      rfl
    · rw [List.replicate_succ', aposPistasInt_snoc, ih hpos]
      simp only [inserirPistaInt, strcmp_self, if_true]
      rw [int32_int32_add]
      norm_cast

/-- The machine insertion agrees with the unbounded one as long as the count to
be raised is an `int` below `INT_MAX`. -/
theorem inserirPistaInt_eq (r : PistaNode) (t : CStr)
    (h : ∀ e ∈ listar r, e.1 = t → -2147483648 ≤ e.2 ∧ e.2 < 2147483647) :
    inserirPistaInt r (some t) = inserirPista r (some t) := by
  cases t with
  | nil => cases r <;> rfl
  | cons c s =>
    induction r with
    | nil => rfl
    | node x n l d ihl ihd =>
      have hl : ∀ e ∈ listar l, e.1 = c :: s → -2147483648 ≤ e.2 ∧ e.2 < 2147483647 :=
        fun e he => h e (by simp [listar, he])
      have hd : ∀ e ∈ listar d, e.1 = c :: s → -2147483648 ≤ e.2 ∧ e.2 < 2147483647 :=
        fun e he => h e (by simp [listar, he])
      simp only [inserirPistaInt, inserirPista]
      split
      · rename_i heq
        have hx : x = c :: s := ((strcmp_eq_zero_iff _ _).mp heq).symm
        have hn := h (x, n) (by simp [listar]) hx
        simp only at hn
        rw [int32_of_range (n + 1) (by omega) (by omega)]
      · split
        · rw [ihl hl]
        · rw [ihd hd]

/-- C2 as stated fails: a 32-bit `int` cannot count to 2147483648; after that
many calls of `inserirPista` with the same text the count of the single entry
is -2147483648, not the number of calls. -/
theorem C2_overflow_counterexample :
    aposPistasInt (List.replicate 2147483648 (some [97])) =
      .node [97] (-2147483648) .nil .nil ∧
    ¬ (∀ (t : CStr) (N : Nat), t ≠ [] → 1 ≤ N →
        aposPistasInt (List.replicate N (some t)) = .node t (N : Int) .nil .nil) := by
  have h := aposPistasInt_replicate 97 [] 2147483648 (by omega)
  have hv : int32 ((2147483648 : Nat) : Int) = -2147483648 := by
    unfold int32
    omega
  rw [hv] at h
  refine ⟨h, ?_⟩
  intro hall
  have h2 := hall [97] 2147483648 (List.cons_ne_nil _ _) (by omega)
  rw [h] at h2
  have h3 := (PistaNode.node.inj h2).2.1
  omega

/-- C2 amended: for every non-empty text `t` and every `N` with
`1 ≤ N ≤ INT_MAX`, `N` calls of `inserirPista` with `t` on the empty tree give
the tree with the single entry of text `t` and count `N`; its in-order listing
is that one entry. -/
theorem C2_same_text_n_times (t : CStr) (N : Nat) (ht : t ≠ []) (hN : 1 ≤ N)
    (hmax : (N : Int) ≤ INT_MAX) :
    aposPistasInt (List.replicate N (some t)) = .node t (N : Int) .nil .nil ∧
    numEntradas (aposPistasInt (List.replicate N (some t))) = 1 ∧
    emOrdem (aposPistasInt (List.replicate N (some t))) = [(t, (N : Int))] := by
  cases t with
  | nil => exact absurd rfl ht
  | cons c s =>
    have key := aposPistasInt_replicate c s N hN
    unfold INT_MAX at hmax
    rw [int32_of_range (N : Int) (by omega) hmax] at key
    rw [key]
    simp [numEntradas, emOrdem, percorrerInOrder, anotar]

/-- Witness of C2: the text "Pegadas de lama" inserted three times. -/
theorem C2_same_text_n_times_witness :
    lit "Pegadas de lama" ≠ [] ∧ 1 ≤ 3 ∧ ((3 : Nat) : Int) ≤ INT_MAX ∧
    aposPistasInt (List.replicate 3 (some (lit "Pegadas de lama"))) =
        .node (lit "Pegadas de lama") ((3 : Nat) : Int) .nil .nil ∧
    numEntradas (aposPistasInt (List.replicate 3 (some (lit "Pegadas de lama")))) = 1 ∧
    emOrdem (aposPistasInt (List.replicate 3 (some (lit "Pegadas de lama")))) =
        [(lit "Pegadas de lama", ((3 : Nat) : Int))] :=
  ⟨by decide, by decide, by decide,
    C2_same_text_n_times (lit "Pegadas de lama") 3 (by decide) (by decide) (by decide)⟩

/-- C3 as stated fails: the text made of one space is whitespace-only, yet
`inserirPista` adds an entry for it to the empty tree; so it is not true that
every absent, empty or whitespace-only text leaves every tree unchanged. -/
theorem C3_whitespace_counterexample :
    soEspacos [32] ∧
    inserirPista .nil (some [32]) = .node [32] 1 .nil .nil ∧
    inserirPista .nil (some [32]) ≠ .nil ∧
    ¬ (∀ (r : PistaNode) (o : Option CStr),
        (o = none ∨ o = some [] ∨ ∃ t, o = some t ∧ t ≠ [] ∧ soEspacos t) →
          inserirPista r o = r) := by
  have hs : soEspacos [32] := by unfold soEspacos; decide
  refine ⟨hs, by decide, by decide, ?_⟩
  intro h
  have h1 := h .nil (some [32]) (Or.inr (Or.inr ⟨[32], rfl, by decide, hs⟩))
  exact absurd h1 (by decide)

/-- C3 amended: for every clue tree, `inserirPista` with an absent (null) text
or with the empty text leaves the tree unchanged: same entries, same counts,
same shape (with the counts taken as `int` or as unbounded integers alike). -/
theorem C3_null_or_empty_is_noop (r : PistaNode) :
    inserirPista r none = r ∧ inserirPista r (some []) = r ∧
    inserirPistaInt r none = r ∧ inserirPistaInt r (some []) = r := by
  refine ⟨?_, ?_, ?_, ?_⟩ <;> cases r <;> rfl

/-! ## Collision chains -/

theorem buscar_atualizar (k v : CStr) (c c' : List HashNode)
    (h : atualizarCadeia k v c = some c') : buscarNaCadeia k c' = some v := by
  induction c generalizing c' with
  | nil => simp [atualizarCadeia] at h
  | cons no prox ih =>
    simp only [atualizarCadeia] at h
    split at h
    · rename_i heq
      simp only [Option.some.injEq] at h
      subst h
      simp [buscarNaCadeia, heq]
    · rename_i hne
      cases hr : atualizarCadeia k v prox with
      | none => simp [hr] at h
      | some r =>
        simp only [hr, Option.map_some', Option.some.injEq] at h
        subst h
        simp [buscarNaCadeia, hne, ih r hr]

theorem buscar_atualizar_outro (k v k2 : CStr) (c c' : List HashNode) (hk : k ≠ k2)
    (h : atualizarCadeia k v c = some c') : buscarNaCadeia k2 c' = buscarNaCadeia k2 c := by
  induction c generalizing c' with
  | nil => simp [atualizarCadeia] at h
  | cons no prox ih =>
    simp only [atualizarCadeia] at h
    split at h
    · rename_i heq
      simp only [Option.some.injEq] at h
      subst h
      have hno : no.chavePista = k := (strcmp_eq_zero_iff _ _).mp heq
      have hne : ¬ strcmp no.chavePista k2 = 0 := by
        rw [strcmp_eq_zero_iff, hno]
        exact hk
      simp [buscarNaCadeia, hne]
    · cases hr : atualizarCadeia k v prox with
      | none => simp [hr] at h
      | some r =>
        simp only [hr, Option.map_some', Option.some.injEq] at h
        subst h
        simp [buscarNaCadeia, ih r hr]

theorem atualizar_none_iff (k v : CStr) (c : List HashNode) :
    atualizarCadeia k v c = none ↔ k ∉ c.map HashNode.chavePista := by
  induction c with
  | nil => simp [atualizarCadeia]
  | cons no prox ih =>
    simp only [atualizarCadeia]
    split
    · rename_i heq
      have hno : no.chavePista = k := (strcmp_eq_zero_iff _ _).mp heq
      simp [hno]
    · rename_i hne
      have hno : ¬ k = no.chavePista := fun h => hne ((strcmp_eq_zero_iff _ _).mpr h.symm)
      simp only [Option.map_eq_none', ih, List.map_cons, List.mem_cons, not_or]
      exact ⟨fun h => ⟨hno, h⟩, fun h => h.2⟩

theorem atualizar_eq_map (k v : CStr) (c c' : List HashNode)
    (hnd : (c.map HashNode.chavePista).Nodup) (h : atualizarCadeia k v c = some c') :
    c' = c.map (trocarSuspeito k v) := by
  induction c generalizing c' with
  | nil => simp [atualizarCadeia] at h
  | cons no prox ih =>
    rw [List.map_cons, List.nodup_cons] at hnd
    simp only [atualizarCadeia] at h
    split at h
    · rename_i heq
      have hno : no.chavePista = k := (strcmp_eq_zero_iff _ _).mp heq
      simp only [Option.some.injEq] at h
      subst h
      have hrest : prox.map (trocarSuspeito k v) = prox := by
        conv_rhs => rw [← List.map_id prox]
        apply List.map_congr_left
        intro x hx
        have : x.chavePista ≠ k := by
          intro hxk
          apply hnd.1
          rw [hno, ← hxk]
          exact List.mem_map_of_mem _ hx
        simp [trocarSuspeito, this]
      simp [trocarSuspeito, hno, hrest]
    · rename_i hne
      have hno : ¬ no.chavePista = k := fun h => hne ((strcmp_eq_zero_iff _ _).mpr h)
      cases hr : atualizarCadeia k v prox with
      | none => simp [hr] at h
      | some r =>
        simp only [hr, Option.map_some', Option.some.injEq] at h
        subst h
        simp [trocarSuspeito, hno, ih r hnd.2 hr]

theorem buscar_some_mem (k s : CStr) (c : List HashNode)
    (h : buscarNaCadeia k c = some s) : k ∈ c.map HashNode.chavePista := by
  induction c with
  | nil => simp [buscarNaCadeia] at h
  | cons no prox ih =>
    simp only [buscarNaCadeia] at h
    split at h
    · rename_i heq
      have hno : no.chavePista = k := (strcmp_eq_zero_iff _ _).mp heq
      simp [hno]
    · simp [ih h]

theorem map_chave_trocar (k v : CStr) (c : List HashNode) :
    (c.map (trocarSuspeito k v)).map HashNode.chavePista = c.map HashNode.chavePista := by
  rw [List.map_map]
  apply List.map_congr_left
  intro x _
  simp only [Function.comp, trocarSuspeito]
  split <;> rfl

/-! ## Buckets -/

theorem getD_set_mesmo (L : List (List HashNode)) (h : Nat) (c : List HashNode)
    (hh : h < L.length) : (L.set h c).getD h [] = c := by
  simp [List.getD_eq_getElem?_getD, List.getElem?_set_self hh]

theorem getD_set_outro (L : List (List HashNode)) (h i : Nat) (c : List HashNode)
    (hne : h ≠ i) : (L.set h c).getD i [] = L.getD i [] := by
  simp [List.getD_eq_getElem?_getD, List.getElem?_set_ne hne]

/-- Lookup of `k` right after `inserirNaHash` of `k`. -/
theorem encontrar_apos_inserir (w : Nat) (ht : HashTable) (k v : CStr)
    (hwf : BemFormada ht) (hcap : 0 < ht.capacidade) :
    encontrarSuspeito w (inserirNaHash w (some ht) (some k) (some v)) (some k) = some v := by
  have hh : djb2 w k % ht.capacidade < ht.buckets.length := by
    rw [hwf]
    exact Nat.mod_lt _ hcap
  simp only [inserirNaHash]
  cases hr : atualizarCadeia k v (ht.buckets.getD (djb2 w k % ht.capacidade) []) with
  | none =>
    simp only [encontrarSuspeito]
    rw [getD_set_mesmo _ _ _ hh]
    simp [buscarNaCadeia, strcmp_self]
  | some c' =>
    simp only [encontrarSuspeito]
    rw [getD_set_mesmo _ _ _ hh]
    exact buscar_atualizar k v _ c' hr

/-- Lookup of another key is not affected by `inserirNaHash`. -/
theorem encontrar_apos_inserir_outro (w : Nat) (ht : HashTable) (k v k2 : CStr)
    (hk : k ≠ k2) :
    encontrarSuspeito w (inserirNaHash w (some ht) (some k) (some v)) (some k2) =
      encontrarSuspeito w (some ht) (some k2) := by
  have hne : ¬ strcmp k k2 = 0 := by
    rw [strcmp_eq_zero_iff]
    exact hk
  simp only [inserirNaHash]
  by_cases hb : djb2 w k % ht.capacidade = djb2 w k2 % ht.capacidade
  · by_cases hh : djb2 w k % ht.capacidade < ht.buckets.length
    · cases hr : atualizarCadeia k v (ht.buckets.getD (djb2 w k % ht.capacidade) []) with
      | none =>
        simp only [encontrarSuspeito]
        rw [← hb, getD_set_mesmo _ _ _ hh]
        simp [buscarNaCadeia, hne]
      | some c' =>
        simp only [encontrarSuspeito]
        rw [← hb, getD_set_mesmo _ _ _ hh]
        exact buscar_atualizar_outro k v k2 _ c' hk hr
    · have hle : ht.buckets.length ≤ djb2 w k % ht.capacidade := by omega
      cases hr : atualizarCadeia k v (ht.buckets.getD (djb2 w k % ht.capacidade) []) with
      | none => simp only [encontrarSuspeito, List.set_eq_of_length_le hle]
      | some c' => simp only [encontrarSuspeito, List.set_eq_of_length_le hle]
  · cases hr : atualizarCadeia k v (ht.buckets.getD (djb2 w k % ht.capacidade) []) with
    | none =>
      simp only [encontrarSuspeito]
      rw [getD_set_outro _ _ _ _ hb]
    | some c' =>
      simp only [encontrarSuspeito]
      rw [getD_set_outro _ _ _ _ hb]

theorem bemFormada_criarHash (capacidade : Nat) : BemFormada (criarHash capacidade) := by
  simp [BemFormada, criarHash]

/-- C4: for every table whose bucket array has `capacidade > 0` cells, every
clue text `k` and every suspect `v`, `encontrarSuspeito` of `k` right after
`inserirNaHash` of `k` and `v` gives `v`; this holds whether `k` had no
association before or had one with another suspect. -/
theorem C4_lookup_after_insert (w : Nat) (ht : HashTable) (k v : CStr)
    (hwf : BemFormada ht) (hcap : 0 < ht.capacidade) :
    encontrarSuspeito w (inserirNaHash w (some ht) (some k) (some v)) (some k) = some v :=
  encontrar_apos_inserir w ht k v hwf hcap

/-- Witness of C4: the key is already in the table with another suspect. -/
theorem C4_lookup_after_insert_witness :
    BemFormada { capacidade := 2, buckets := [[], [⟨lit "Luva", lit "Sr. Mostarda"⟩]] } ∧
    0 < (2 : Nat) ∧
    encontrarSuspeito 64
      (inserirNaHash 64
        (some { capacidade := 2, buckets := [[], [⟨lit "Luva", lit "Sr. Mostarda"⟩]] })
        (some (lit "Luva")) (some (lit "Jardineiro")))
      (some (lit "Luva")) = some (lit "Jardineiro") :=
  ⟨rfl, by decide,
    C4_lookup_after_insert 64
      { capacidade := 2, buckets := [[], [⟨lit "Luva", lit "Sr. Mostarda"⟩]] }
      (lit "Luva") (lit "Jardineiro") rfl (by decide)⟩

/-! ## The structural invariant of the table -/

theorem integra_criarHash (w capacidade : Nat) : Integra w (criarHash capacidade) := by
  refine ⟨by simp [criarHash], ?_, ?_⟩
  · intro i no hno
    simp only [criarHash, List.getD_eq_getElem?_getD, List.getElem?_replicate] at hno
    split at hno <;> simp at hno
  · intro i
    simp only [criarHash, List.getD_eq_getElem?_getD, List.getElem?_replicate]
    split <;> simp

theorem integra_inserir (w : Nat) (ht : HashTable) (k v : CStr) (hI : Integra w ht)
    (hcap : 0 < ht.capacidade) :
    ∃ ht', inserirNaHash w (some ht) (some k) (some v) = some ht' ∧ Integra w ht' ∧
      ht'.capacidade = ht.capacidade := by
  obtain ⟨hlen, hpos, hnd⟩ := hI
  have hh : djb2 w k % ht.capacidade < ht.buckets.length := by
    rw [hlen]
    exact Nat.mod_lt _ hcap
  simp only [inserirNaHash]
  cases hr : atualizarCadeia k v (ht.buckets.getD (djb2 w k % ht.capacidade) []) with
  | none =>
    refine ⟨_, rfl, ⟨by simpa using hlen, ?_, ?_⟩, rfl⟩
    · intro i no hno
      by_cases hi : djb2 w k % ht.capacidade = i
      · subst hi
        simp only [getD_set_mesmo _ _ _ hh, List.mem_cons] at hno
        rcases hno with h | h
        · rw [h]
        · exact hpos _ no h
      · simp only [getD_set_outro _ _ _ _ hi] at hno
        exact hpos _ no hno
    · intro i
      by_cases hi : djb2 w k % ht.capacidade = i
      · subst hi
        simp only [getD_set_mesmo _ _ _ hh, List.map_cons, List.nodup_cons]
        exact ⟨(atualizar_none_iff k v _).mp hr, hnd _⟩
      · simp only [getD_set_outro _ _ _ _ hi]
        exact hnd i
  | some c' =>
    have hc := atualizar_eq_map k v _ c' (hnd _) hr
    refine ⟨_, rfl, ⟨by simpa using hlen, ?_, ?_⟩, rfl⟩
    · intro i no hno
      by_cases hi : djb2 w k % ht.capacidade = i
      · subst hi
        simp only [getD_set_mesmo _ _ _ hh, hc, List.mem_map] at hno
        obtain ⟨x, hx, hxe⟩ := hno
        have hkey : no.chavePista = x.chavePista := by
          rw [← hxe]
          unfold trocarSuspeito
          split <;> rfl
        rw [hkey]
        exact hpos _ x hx
      · simp only [getD_set_outro _ _ _ _ hi] at hno
        exact hpos _ no hno
    · intro i
      by_cases hi : djb2 w k % ht.capacidade = i
      · subst hi
        simp only [getD_set_mesmo _ _ _ hh, hc, map_chave_trocar]
        exact hnd _
      · simp only [getD_set_outro _ _ _ _ hi]
        exact hnd i

theorem integra_passo (w cap : Nat) (o : Option HashTable) (p s : Option CStr)
    (hcap : 0 < cap)
    (h : ∃ ht, o = some ht ∧ Integra w ht ∧ ht.capacidade = cap) :
    ∃ ht, inserirNaHash w o p s = some ht ∧ Integra w ht ∧ ht.capacidade = cap := by
  obtain ⟨ht, rfl, hI, hc⟩ := h
  cases p with
  | none => exact ⟨ht, by simp [inserirNaHash], hI, hc⟩
  | some k =>
    cases s with
    | none => exact ⟨ht, by simp [inserirNaHash], hI, hc⟩
    | some v =>
      obtain ⟨ht', h1, h2, h3⟩ := integra_inserir w ht k v hI (by omega)
      exact ⟨ht', h1, h2, by omega⟩

theorem integra_foldl (w cap : Nat) (ops : List (Option CStr × Option CStr))
    (o : Option HashTable) (hcap : 0 < cap)
    (h : ∃ ht, o = some ht ∧ Integra w ht ∧ ht.capacidade = cap) :
    ∃ ht, ops.foldl (fun ht op => inserirNaHash w ht op.1 op.2) o = some ht ∧
      Integra w ht ∧ ht.capacidade = cap := by
  induction ops generalizing o with
  | nil => simpa using h
  | cons op ops ih =>
    simp only [List.foldl_cons]
    exact ih _ (integra_passo w cap o op.1 op.2 hcap h)

theorem integra_aposInsercoes (w cap : Nat) (ops : List (Option CStr × Option CStr))
    (hcap : 0 < cap) :
    ∃ ht, aposInsercoes w cap ops = some ht ∧ Integra w ht ∧ ht.capacidade = cap :=
  integra_foldl w cap ops _ hcap ⟨criarHash cap, rfl, integra_criarHash w cap, rfl⟩

theorem getD_eq_of_lt (L : List (List HashNode)) (i : Nat) (hi : i < L.length) :
    L.getD i [] = L[i] := by
  simp [List.getD_eq_getElem?_getD, List.getElem?_eq_getElem hi]

theorem integra_chaves_nodup (w : Nat) (ht : HashTable) (hI : Integra w ht) :
    (chaves ht).Nodup := by
  obtain ⟨_, hpos, hnd⟩ := hI
  unfold chaves todosNos
  rw [List.map_flatten, List.nodup_flatten]
  constructor
  · intro l hl
    obtain ⟨c, hc, rfl⟩ := List.mem_map.mp hl
    obtain ⟨i, hi, rfl⟩ := List.mem_iff_getElem.mp hc
    rw [← getD_eq_of_lt _ i hi]
    exact hnd i
  · rw [List.pairwise_iff_getElem]
    intro i j hi hj hij
    simp only [List.length_map] at hi hj
    simp only [List.getElem_map]
    rw [List.disjoint_left]
    intro a ha hb
    obtain ⟨x, hx, hxa⟩ := List.mem_map.mp ha
    obtain ⟨y, hy, hya⟩ := List.mem_map.mp hb
    rw [← getD_eq_of_lt _ i hi] at hx
    rw [← getD_eq_of_lt _ j hj] at hy
    have h1 := hpos i x hx
    have h2 := hpos j y hy
    rw [hxa] at h1
    rw [hya] at h2
    omega

theorem integra_mem_chaves (w : Nat) (ht : HashTable) (k : CStr) (hI : Integra w ht)
    (hk : k ∈ chaves ht) :
    k ∈ (ht.buckets.getD (djb2 w k % ht.capacidade) []).map HashNode.chavePista := by
  obtain ⟨_, hpos, _⟩ := hI
  unfold chaves todosNos at hk
  obtain ⟨no, hno, hkey⟩ := List.mem_map.mp hk
  obtain ⟨c, hc, hnoc⟩ := List.mem_flatten.mp hno
  obtain ⟨i, hi, rfl⟩ := List.mem_iff_getElem.mp hc
  rw [← getD_eq_of_lt _ i hi] at hnoc
  have h1 := hpos i no hnoc
  rw [hkey] at h1
  rw [h1]
  exact List.mem_map.mpr ⟨no, hnoc, hkey⟩

theorem integra_inserir_presente (w : Nat) (ht : HashTable) (k v : CStr)
    (hI : Integra w ht) (hk : k ∈ chaves ht) :
    ∃ ht', inserirNaHash w (some ht) (some k) (some v) = some ht' ∧
      ht'.capacidade = ht.capacidade ∧
      ht'.buckets = ht.buckets.map (fun cadeia => cadeia.map (trocarSuspeito k v)) := by
  have hmem := integra_mem_chaves w ht k hI hk
  obtain ⟨_, hpos, hnd⟩ := hI
  simp only [inserirNaHash]
  cases hr : atualizarCadeia k v (ht.buckets.getD (djb2 w k % ht.capacidade) []) with
  | none => exact absurd hmem ((atualizar_none_iff k v _).mp hr)
  | some c' =>
    have hc := atualizar_eq_map k v _ c' (hnd _) hr
    refine ⟨_, rfl, rfl, ?_⟩
    apply List.ext_getElem
    · simp
    · intro n h1 h2
      have hn : n < ht.buckets.length := by simpa using h1
      rw [List.getElem_set, List.getElem_map]
      split
      · rename_i hhn
        rw [hc, hhn, getD_eq_of_lt _ n hn]
      · rename_i hhn
        conv_lhs => rw [← List.map_id (ht.buckets[n])]
        apply List.map_congr_left
        intro x hx
        rw [← getD_eq_of_lt _ n hn] at hx
        have h3 := hpos n x hx
        have : x.chavePista ≠ k := by
          intro hxk
          rw [hxk] at h3
          exact hhn h3
        simp [trocarSuspeito, this]

theorem filter_chave_le_one (l : List HashNode) (k : CStr)
    (h : (l.map HashNode.chavePista).Nodup) :
    (l.filter (fun no => decide (no.chavePista = k))).length ≤ 1 := by
  induction l with
  | nil => simp
  | cons no l ih =>
    rw [List.map_cons, List.nodup_cons] at h
    by_cases hk : no.chavePista = k
    · have hnone : l.filter (fun no => decide (no.chavePista = k)) = [] := by
        rw [List.filter_eq_nil_iff]
        intro x hx
        simp only [decide_eq_true_eq]
        intro hxk
        apply h.1
        rw [hk, ← hxk]
        exact List.mem_map_of_mem _ hx
      simp [List.filter_cons, hk, hnone]
    · simpa [List.filter_cons, hk] using ih h.2

/-- C5: in the table reached from a fresh table of capacity `> 0` by any
sequence of `inserirNaHash` calls, every clue text is the key of at most one
chain node of the whole table; and `inserirNaHash` on a key present in it
keeps the capacity, the number of chain nodes and every chain's shape, the
only change being that the node with that key now holds the new suspect. -/
theorem C5_one_node_per_key (w cap : Nat) (ops : List (Option CStr × Option CStr))
    (hcap : 0 < cap) :
    ∃ ht, aposInsercoes w cap ops = some ht ∧
      (∀ k, ((todosNos ht).filter (fun no => decide (no.chavePista = k))).length ≤ 1) ∧
      (∀ k v, k ∈ chaves ht →
        ∃ ht', inserirNaHash w (some ht) (some k) (some v) = some ht' ∧
          ht'.capacidade = ht.capacidade ∧
          (todosNos ht').length = (todosNos ht).length ∧
          chaves ht' = chaves ht ∧
          ht'.buckets = ht.buckets.map (fun cadeia => cadeia.map (trocarSuspeito k v))) := by
  obtain ⟨ht, h1, hI, _⟩ := integra_aposInsercoes w cap ops hcap
  refine ⟨ht, h1, ?_, ?_⟩
  · exact fun k => filter_chave_le_one _ k (integra_chaves_nodup w ht hI)
  · intro k v hk
    obtain ⟨ht', h2, h3, h4⟩ := integra_inserir_presente w ht k v hI hk
    refine ⟨ht', h2, h3, ?_, ?_, h4⟩
    · simp only [todosNos, h4, ← List.map_flatten, List.length_map]
    · simp only [chaves, todosNos, h4, ← List.map_flatten, map_chave_trocar]

/-- Witness of C5: a table of one bucket after three calls, the third on the
key of the first. -/
theorem C5_one_node_per_key_witness :
    0 < (1 : Nat) ∧
    ∃ ht, aposInsercoes 64 1
        [(some (lit "a"), some (lit "X")), (some (lit "b"), some (lit "Y")),
          (some (lit "a"), some (lit "Z"))] = some ht ∧
      (∀ k, ((todosNos ht).filter (fun no => decide (no.chavePista = k))).length ≤ 1) ∧
      (∀ k v, k ∈ chaves ht →
        ∃ ht', inserirNaHash 64 (some ht) (some k) (some v) = some ht' ∧
          ht'.capacidade = ht.capacidade ∧
          (todosNos ht').length = (todosNos ht).length ∧
          chaves ht' = chaves ht ∧
          ht'.buckets = ht.buckets.map (fun cadeia => cadeia.map (trocarSuspeito k v))) :=
  ⟨by decide, C5_one_node_per_key 64 1 _ (by decide)⟩

/-! ## Lookup of a key that was never inserted -/

theorem encontrar_criarHash (w cap : Nat) (k : CStr) :
    encontrarSuspeito w (some (criarHash cap)) (some k) = none := by
  simp only [encontrarSuspeito, criarHash, List.getD_eq_getElem?_getD,
    List.getElem?_replicate]
  split <;> simp [buscarNaCadeia]

theorem encontrar_passo_outro (w : Nat) (o : Option HashTable) (p s : Option CStr)
    (k : CStr) (hp : p ≠ some k) :
    encontrarSuspeito w (inserirNaHash w o p s) (some k) = encontrarSuspeito w o (some k) := by
  cases o with
  | none => cases p <;> cases s <;> simp [inserirNaHash]
  | some ht =>
    cases p with
    | none => simp [inserirNaHash]
    | some k1 =>
      cases s with
      | none => simp [inserirNaHash]
      | some v =>
        have hne : k1 ≠ k := fun h => hp (by rw [h])
        exact encontrar_apos_inserir_outro w ht k1 v k hne

theorem encontrar_foldl_outro (w : Nat) (ops : List (Option CStr × Option CStr))
    (o : Option HashTable) (k : CStr) (hk : ∀ op ∈ ops, op.1 ≠ some k) :
    encontrarSuspeito w (ops.foldl (fun ht op => inserirNaHash w ht op.1 op.2) o) (some k) =
      encontrarSuspeito w o (some k) := by
  induction ops generalizing o with
  | nil => rfl
  | cons op ops ih =>
    simp only [List.foldl_cons]
    rw [ih _ (fun x hx => hk x (List.mem_cons_of_mem _ hx))]
    exact encontrar_passo_outro w o op.1 op.2 k (hk op (List.mem_cons_self _ _))

/-- C6: for the table reached from a fresh table of capacity `> 0` by any
sequence of `inserirNaHash` calls and every clue text `k` that was the key of
none of those calls, `encontrarSuspeito` of `k` gives `NULL`; nothing is assumed
on the bucket of `k` nor on how close `k` is to a stored key. -/
theorem C6_lookup_of_absent_key (w cap : Nat) (ops : List (Option CStr × Option CStr))
    (k : CStr) (_hcap : 0 < cap) (hk : ∀ op ∈ ops, op.1 ≠ some k) :
    encontrarSuspeito w (aposInsercoes w cap ops) (some k) = none := by
  unfold aposInsercoes
  rw [encontrar_foldl_outro w ops _ k hk]
  exact encontrar_criarHash w cap k

/-- Witness of C6: one bucket only, so the absent key shares its bucket with
the stored one, from which it differs by the case of its first letter. -/
theorem C6_lookup_of_absent_key_witness :
    0 < (1 : Nat) ∧
    (∀ op ∈ [(some (lit "Luva de couro"), some (lit "Sr. Mostarda"))],
      op.1 ≠ some (lit "luva de couro")) ∧
    encontrarSuspeito 64
      (aposInsercoes 64 1 [(some (lit "Luva de couro"), some (lit "Sr. Mostarda"))])
      (some (lit "luva de couro")) = none :=
  ⟨by decide, by decide,
    C6_lookup_of_absent_key 64 1 [(some (lit "Luva de couro"), some (lit "Sr. Mostarda"))]
      (lit "luva de couro") (by decide) (by decide)⟩

/-! ## Tally -/

theorem contar_node (w : Nat) (t : CStr) (c : Int) (l d : PistaNode)
    (ctx : ContadorSuspeitoCtx) :
    contarSeDoAcusado w (.node t c l d) ctx =
      { ctx with total := ctx.total +
          (if encontrarSuspeito w ctx.ht (some t) = some ctx.acusado then c else 0) } := by
  simp only [contarSeDoAcusado]
  cases hr : encontrarSuspeito w ctx.ht (some t) with
  | none => simp
  | some sus =>
    by_cases hs : sus = ctx.acusado
    · simp [hs, strcmp_self]
    · have : ¬ strcmp sus ctx.acusado = 0 := by
        rw [strcmp_eq_zero_iff]
        exact hs
      simp [hs, this]

theorem somaDoAcusado_node (w : Nat) (ht : Option HashTable) (acusado : CStr)
    (t : CStr) (c : Int) (l d : PistaNode) :
    somaDoAcusado w ht acusado (listar (.node t c l d)) =
      somaDoAcusado w ht acusado (listar l) +
        (if encontrarSuspeito w ht (some t) = some acusado then c else 0) +
        somaDoAcusado w ht acusado (listar d) := by
  simp only [somaDoAcusado, listar, List.filter_append, List.filter_cons, List.map_append,
    List.sum_append]
  by_cases h : encontrarSuspeito w ht (some t) = some acusado
  · simp [h]
    omega
  · simp [h]

theorem percorrer_contar (w : Nat) (r : PistaNode) (ctx : ContadorSuspeitoCtx) :
    percorrerInOrder r (contarSeDoAcusado w) ctx =
      { ctx with total := ctx.total + somaDoAcusado w ctx.ht ctx.acusado (listar r) } := by
  induction r generalizing ctx with
  | nil => simp [percorrerInOrder, listar, somaDoAcusado]
  | node t c l d ihl ihd =>
    simp only [percorrerInOrder]
    rw [ihl, contar_node, ihd, somaDoAcusado_node]
    simp only [ContadorSuspeitoCtx.mk.injEq, true_and]
    omega

theorem total_eq_tally (w : Nat) (pistas : PistaNode) (ht : Option HashTable)
    (acusado : CStr) :
    (percorrerInOrder pistas (contarSeDoAcusado w)
      { ht := ht, acusado := acusado, total := 0 }).total = tally w pistas ht acusado := by
  rw [percorrer_contar, tally]
  simp

theorem contarInt_node (w : Nat) (t : CStr) (c : Int) (l d : PistaNode)
    (ctx : ContadorSuspeitoCtx) :
    contarSeDoAcusadoInt w (.node t c l d) ctx =
      { ctx with total :=
          if encontrarSuspeito w ctx.ht (some t) = some ctx.acusado then
            int32 (ctx.total + c)
          else ctx.total } := by
  simp only [contarSeDoAcusadoInt]
  cases hr : encontrarSuspeito w ctx.ht (some t) with
  | none => simp
  | some sus =>
    by_cases hs : sus = ctx.acusado
    · simp [hs, strcmp_self]
    · have : ¬ strcmp sus ctx.acusado = 0 := by
        rw [strcmp_eq_zero_iff]
        exact hs
      simp [hs, this]

theorem percorrer_contarInt (w : Nat) (r : PistaNode) (ctx : ContadorSuspeitoCtx)
    (hctx : int32 ctx.total = ctx.total) :
    percorrerInOrder r (contarSeDoAcusadoInt w) ctx =
      { ctx with
        total := int32 (ctx.total + somaDoAcusado w ctx.ht ctx.acusado (listar r)) } := by
  induction r generalizing ctx with
  | nil =>
    simp only [percorrerInOrder, listar, somaDoAcusado, List.filter_nil, List.map_nil,
      List.sum_nil, add_zero, hctx]
  | node t c l d ihl ihd =>
    simp only [percorrerInOrder]
    rw [ihl ctx hctx, contarInt_node]
    by_cases hm : encontrarSuspeito w ctx.ht (some t) = some ctx.acusado
    · simp only [hm, if_true]
      rw [ihd _ (int32_idem _), somaDoAcusado_node]
      simp only [hm, if_true, ContadorSuspeitoCtx.mk.injEq, true_and]
      unfold int32
      omega
    · simp only [hm, if_false]
      rw [ihd _ (int32_idem _), somaDoAcusado_node]
      simp only [hm, if_false, ContadorSuspeitoCtx.mk.injEq, true_and]
      unfold int32
      omega

theorem totalInt_eq (w : Nat) (pistas : PistaNode) (ht : Option HashTable)
    (acusado : CStr) :
    (percorrerInOrder pistas (contarSeDoAcusadoInt w)
      { ht := ht, acusado := acusado, total := 0 }).total =
      int32 (tally w pistas ht acusado) := by
  rw [percorrer_contarInt w pistas _ (by show int32 (0 : Int) = 0; decide), tally]
  simp

/-- C7 as stated fails: with "Pegadas de lama" counted `INT_MAX` times and
"Terra revolvida" once, both pointing to "Jardineiro", the sum of the counts
is 2147483648, which the `int` total cannot hold: the total computed is
-2147483648. -/
theorem C7_overflow_counterexample :
    (percorrerInOrder
      (.node (lit "Pegadas de lama") 2147483647 .nil
        (.node (lit "Terra revolvida") 1 .nil .nil))
      (contarSeDoAcusadoInt 64)
      { ht := tabelaExemplo, acusado := lit "Jardineiro", total := 0 }).total =
      -2147483648 ∧
    tally 64
      (.node (lit "Pegadas de lama") 2147483647 .nil
        (.node (lit "Terra revolvida") 1 .nil .nil))
      tabelaExemplo (lit "Jardineiro") = 2147483648 := by
  refine ⟨by decide, by decide⟩

/-- C7 amended: for every clue tree, every table with capacity `> 0` and every
accused name, when no running sum of the traversal leaves the range of `int`
(each sum over a prefix of the in-order entries lies between `INT_MIN` and
`INT_MAX`), the total that `percorrerInOrder` computes with
`contarSeDoAcusado` from 0 is the sum of the counts of exactly the entries of
the tree whose text the table associates with the accused name, byte for
byte; so when the entries are A with count 2 and B with count 1, both
associated with the accused, and entries not associated with the accused, the
total is 3. -/
theorem C7_tally_is_sum_of_counts (w : Nat) (pistas : PistaNode) (ht : HashTable)
    (acusado : CStr) (_hwf : BemFormada ht) (_hcap : 0 < ht.capacidade)
    (hsem : ∀ p ∈ (listar pistas).inits,
      INT_MIN ≤ somaDoAcusado w (some ht) acusado p ∧
        somaDoAcusado w (some ht) acusado p ≤ INT_MAX) :
    (percorrerInOrder pistas (contarSeDoAcusadoInt w)
      { ht := some ht, acusado := acusado, total := 0 }).total =
      tally w pistas (some ht) acusado ∧
    ∀ (A B : CStr) (resto : List (CStr × Int)),
      (listar pistas).Perm ((A, 2) :: (B, 1) :: resto) →
      encontrarSuspeito w (some ht) (some A) = some acusado →
      encontrarSuspeito w (some ht) (some B) = some acusado →
      (∀ e ∈ resto, encontrarSuspeito w (some ht) (some e.1) ≠ some acusado) →
      (percorrerInOrder pistas (contarSeDoAcusadoInt w)
        { ht := some ht, acusado := acusado, total := 0 }).total = 3 := by
  constructor
  · have h := hsem (listar pistas) (by simp [List.mem_inits])
    unfold INT_MIN INT_MAX at h
    rw [totalInt_eq, tally]
    exact int32_of_range _ h.1 h.2
  · intro A B resto hperm hA hB hresto
    have htal : tally w pistas (some ht) acusado = 3 := by
      rw [tally, somaDoAcusado, ((hperm.filter _).map _).sum_eq]
      have hnone : resto.filter
          (fun e => decide (encontrarSuspeito w (some ht) (some e.1) = some acusado)) = [] := by
        rw [List.filter_eq_nil_iff]
        intro e he
        simpa using hresto e he
      simp [List.filter_cons, hA, hB, hnone]
    rw [totalInt_eq, htal]
    decide

/-- Witness of C7: "Pegadas de lama" (count 2) and "Terra revolvida" (count 1)
point to "Jardineiro"; "Perfume forte" points to someone else and "Taça com
batom" to nobody. -/
theorem C7_tally_is_sum_of_counts_witness :
    BemFormada tabelaPequena ∧ 0 < tabelaPequena.capacidade ∧
    (∀ p ∈ (listar pistasExemplo).inits,
      INT_MIN ≤ somaDoAcusado 64 (some tabelaPequena) (lit "Jardineiro") p ∧
        somaDoAcusado 64 (some tabelaPequena) (lit "Jardineiro") p ≤ INT_MAX) ∧
    (listar pistasExemplo).Perm
      ((lit "Pegadas de lama", 2) :: (lit "Terra revolvida", 1) ::
        [(lit "Perfume forte", 1), (lit "Taça com batom", 1)]) ∧
    (percorrerInOrder pistasExemplo (contarSeDoAcusadoInt 64)
      { ht := some tabelaPequena, acusado := lit "Jardineiro", total := 0 }).total = 3 :=
  ⟨rfl, by decide, by decide, by decide,
    (C7_tally_is_sum_of_counts 64 pistasExemplo tabelaPequena (lit "Jardineiro")
      rfl (by decide) (by decide)).2
      (lit "Pegadas de lama") (lit "Terra revolvida")
      [(lit "Perfume forte", 1), (lit "Taça com batom", 1)]
      (by decide) (by decide) (by decide) (by decide)⟩

/-! ## Verdict -/

theorem verificar_cons (w : Nat) (pistas : PistaNode) (ht : Option HashTable)
    (linha : CStr) (resto : List CStr) (hnome : rstrip linha ≠ []) :
    verificarSuspeitoFinal w pistas ht (linha :: resto) =
      if (percorrerInOrder pistas (contarSeDoAcusado w)
          { ht := ht, acusado := rstrip linha, total := 0 }).total ≥ 2 then
        .culpado (percorrerInOrder pistas (contarSeDoAcusado w)
          { ht := ht, acusado := rstrip linha, total := 0 }).total (rstrip linha)
      else
        .insuficiente (percorrerInOrder pistas (contarSeDoAcusado w)
          { ht := ht, acusado := rstrip linha, total := 0 }).total (rstrip linha) := by
  simp only [verificarSuspeitoFinal]
  cases h : rstrip linha with
  | nil => exact absurd h hnome
  | cons c e => rfl

/-- C8: when an accused name is given, for every value `t` of the total that
`verificarSuspeitoFinal` computes (non-negative values in particular), the
verdict is CULPADO exactly when `t ≥ 2` and INSUFICIENTE exactly when `t < 2`;
so total 1 gives INSUFICIENTE and total 2 gives CULPADO. -/
theorem C8_verdict_threshold (w : Nat) (pistas : PistaNode) (ht : Option HashTable)
    (linha : CStr) (resto : List CStr) (t : Int) (hnome : rstrip linha ≠ [])
    (htotal : (percorrerInOrder pistas (contarSeDoAcusado w)
      { ht := ht, acusado := rstrip linha, total := 0 }).total = t) :
    (verificarSuspeitoFinal w pistas ht (linha :: resto) = .culpado t (rstrip linha) ↔
      2 ≤ t) ∧
    (verificarSuspeitoFinal w pistas ht (linha :: resto) = .insuficiente t (rstrip linha) ↔
      t < 2) := by
  rw [verificar_cons w pistas ht linha resto hnome, htotal]
  by_cases h : 2 ≤ t
  · have h2 : ¬ t < 2 := by omega
    simp [h, h2]
  · have h2 : t < 2 := by omega
    simp [h, h2]

/-- Witness of C8, at the boundary: one clue of the accused collected once
(total 1), then collected twice (total 2). -/
theorem C8_verdict_threshold_witness :
    (rstrip (lit "Jardineiro\n") ≠ [] ∧
      (percorrerInOrder (aposPistas [some (lit "Terra revolvida")]) (contarSeDoAcusado 64)
        { ht := tabelaExemplo, acusado := rstrip (lit "Jardineiro\n"), total := 0 }).total
        = 1 ∧
      ((verificarSuspeitoFinal 64 (aposPistas [some (lit "Terra revolvida")]) tabelaExemplo
          (lit "Jardineiro\n" :: []) = .culpado 1 (rstrip (lit "Jardineiro\n")) ↔
          (2 : Int) ≤ 1) ∧
        (verificarSuspeitoFinal 64 (aposPistas [some (lit "Terra revolvida")]) tabelaExemplo
          (lit "Jardineiro\n" :: []) = .insuficiente 1 (rstrip (lit "Jardineiro\n")) ↔
          (1 : Int) < 2))) ∧
    ((verificarSuspeitoFinal 64
          (aposPistas [some (lit "Terra revolvida"), some (lit "Terra revolvida")])
          tabelaExemplo (lit "Jardineiro\n" :: []) =
            .culpado 2 (rstrip (lit "Jardineiro\n")) ↔ (2 : Int) ≤ 2) ∧
      (verificarSuspeitoFinal 64
          (aposPistas [some (lit "Terra revolvida"), some (lit "Terra revolvida")])
          tabelaExemplo (lit "Jardineiro\n" :: []) =
            .insuficiente 2 (rstrip (lit "Jardineiro\n")) ↔ (2 : Int) < 2)) :=
  ⟨⟨by decide, by decide,
      C8_verdict_threshold 64 (aposPistas [some (lit "Terra revolvida")]) tabelaExemplo
        (lit "Jardineiro\n") [] 1 (by decide) (by decide)⟩,
    C8_verdict_threshold 64
      (aposPistas [some (lit "Terra revolvida"), some (lit "Terra revolvida")])
      tabelaExemplo (lit "Jardineiro\n") [] 2 (by decide) (by decide)⟩

/-! ## The scenario of the two clues of the gardener -/

theorem bemFormada_inserir (w : Nat) (ht : HashTable) (k v : CStr) (h : BemFormada ht) :
    ∃ ht', inserirNaHash w (some ht) (some k) (some v) = some ht' ∧ BemFormada ht' ∧
      ht'.capacidade = ht.capacidade := by
  simp only [inserirNaHash]
  cases atualizarCadeia k v (ht.buckets.getD (djb2 w k % ht.capacidade) []) with
  | none => exact ⟨_, rfl, by simpa [BemFormada] using h, rfl⟩
  | some c => exact ⟨_, rfl, by simpa [BemFormada] using h, rfl⟩

theorem encontrar_duas (w cap : Nat) (k1 k2 v1 v2 : CStr) (hcap : 0 < cap) (hk : k1 ≠ k2) :
    encontrarSuspeito w (aposInsercoes w cap [(some k1, some v1), (some k2, some v2)])
      (some k1) = some v1 ∧
    encontrarSuspeito w (aposInsercoes w cap [(some k1, some v1), (some k2, some v2)])
      (some k2) = some v2 := by
  simp only [aposInsercoes, List.foldl_cons, List.foldl_nil]
  obtain ⟨ht1, h1, hwf1, hc1⟩ :=
    bemFormada_inserir w (criarHash cap) k1 v1 (bemFormada_criarHash cap)
  have hfirst : encontrarSuspeito w (some ht1) (some k1) = some v1 := by
    rw [← h1]
    exact encontrar_apos_inserir w (criarHash cap) k1 v1 (bemFormada_criarHash cap) hcap
  rw [h1]
  constructor
  · rw [encontrar_apos_inserir_outro w ht1 k2 v2 k1 (fun h => hk h.symm)]
    exact hfirst
  · exact encontrar_apos_inserir w ht1 k2 v2 hwf1 (by rw [hc1]; exact hcap)

/-- C9: from a fresh table of any capacity `> 0` and the empty clue tree,
after `inserirNaHash` of "Pegadas de lama" and of "Terra revolvida", both with
"Jardineiro", and `inserirPista` of each of the two texts once (in either
order), the total counted for the accused "Jardineiro" is 2 and
`verificarSuspeitoFinal`, given that name, concludes CULPADO. -/
theorem C9_gardener_scenario (w cap : Nat) (hcap : 0 < cap) :
    ∀ pistas ∈ [aposPistas [some (lit "Pegadas de lama"), some (lit "Terra revolvida")],
        aposPistas [some (lit "Terra revolvida"), some (lit "Pegadas de lama")]],
      (percorrerInOrder pistas (contarSeDoAcusado w)
        { ht := aposInsercoes w cap
            [(some (lit "Pegadas de lama"), some (lit "Jardineiro")),
             (some (lit "Terra revolvida"), some (lit "Jardineiro"))],
          acusado := lit "Jardineiro", total := 0 }).total = 2 ∧
      verificarSuspeitoFinal w pistas
        (aposInsercoes w cap
            [(some (lit "Pegadas de lama"), some (lit "Jardineiro")),
             (some (lit "Terra revolvida"), some (lit "Jardineiro"))])
        [lit "Jardineiro\n"] = .culpado 2 (lit "Jardineiro") := by
  obtain ⟨hP, hT⟩ := encontrar_duas w cap (lit "Pegadas de lama") (lit "Terra revolvida")
    (lit "Jardineiro") (lit "Jardineiro") hcap (by decide)
  have hr : rstrip (lit "Jardineiro\n") = lit "Jardineiro" := by decide
  have hne : rstrip (lit "Jardineiro\n") ≠ [] := by decide
  have e1 : emOrdem (aposPistas [some (lit "Pegadas de lama"), some (lit "Terra revolvida")])
      = [(lit "Pegadas de lama", 1), (lit "Terra revolvida", 1)] := by decide
  have e2 : emOrdem (aposPistas [some (lit "Terra revolvida"), some (lit "Pegadas de lama")])
      = [(lit "Pegadas de lama", 1), (lit "Terra revolvida", 1)] := by decide
  have key : ∀ pistas, emOrdem pistas =
      [(lit "Pegadas de lama", 1), (lit "Terra revolvida", 1)] →
      (percorrerInOrder pistas (contarSeDoAcusado w)
        { ht := aposInsercoes w cap
            [(some (lit "Pegadas de lama"), some (lit "Jardineiro")),
             (some (lit "Terra revolvida"), some (lit "Jardineiro"))],
          acusado := lit "Jardineiro", total := 0 }).total = 2 := by
    intro pistas he
    rw [total_eq_tally, tally, ← emOrdem_eq_listar, he, somaDoAcusado]
    simp only [List.filter_cons, hP, hT, decide_True, if_true, List.filter_nil, List.map_cons,
      List.map_nil, List.sum_cons, List.sum_nil]
    rfl
  intro pistas hp
  have he : emOrdem pistas = [(lit "Pegadas de lama", 1), (lit "Terra revolvida", 1)] := by
    simp only [List.mem_cons, List.mem_singleton, List.not_mem_nil, or_false] at hp
    rcases hp with h | h
    · rw [h]
      exact e1
    · rw [h]
      exact e2
  refine ⟨key pistas he, ?_⟩
  rw [verificar_cons w pistas _ _ _ hne, hr, key pistas he]
  rfl

/-- Witness of C9: capacity 101 as in `main`, 64-bit `unsigned long`. -/
theorem C9_gardener_scenario_witness :
    0 < (101 : Nat) ∧
    ∀ pistas ∈ [aposPistas [some (lit "Pegadas de lama"), some (lit "Terra revolvida")],
        aposPistas [some (lit "Terra revolvida"), some (lit "Pegadas de lama")]],
      (percorrerInOrder pistas (contarSeDoAcusado 64)
        { ht := aposInsercoes 64 101
            [(some (lit "Pegadas de lama"), some (lit "Jardineiro")),
             (some (lit "Terra revolvida"), some (lit "Jardineiro"))],
          acusado := lit "Jardineiro", total := 0 }).total = 2 ∧
      verificarSuspeitoFinal 64 pistas
        (aposInsercoes 64 101
            [(some (lit "Pegadas de lama"), some (lit "Jardineiro")),
             (some (lit "Terra revolvida"), some (lit "Jardineiro"))])
        [lit "Jardineiro\n"] = .culpado 2 (lit "Jardineiro") :=
  ⟨by decide, C9_gardener_scenario 64 101 (by decide)⟩

/-! ## Exploration of the Aventureiro map -/

namespace Aventureiro

theorem laco_esquerda (atual : Sala) (pistas : PistaNode) (linha : CStr) (resto : List CStr)
    (hop : lerOpcao (some linha) = 101) (hesq : atual.esq ≠ .nil) :
    laco atual pistas (linha :: resto) = laco atual.esq (coletar atual.esq pistas) resto := by
  simp [laco, passo, hop, hesq]

theorem laco_sair (atual : Sala) (pistas : PistaNode) (entrada : List CStr)
    (hop : lerOpcao entrada.head? = 115) :
    (laco atual pistas entrada).2.1 = pistas := by
  cases entrada with
  | nil => rfl
  | cons linha resto =>
    simp only [List.head?_cons] at hop
    simp [laco, passo, hop]

/-- C10: on the map built by `montarMapa`, an exploration whose first two
commands read as e and whose third reads as s (a line whose first non-space
letter is s or S, or the end of the input) collects exactly two clues; the
in-order listing of the clue tree is "Livro fora do lugar" then "Pegadas de
lama", each with count 1, and `exibirPistas` prints these two lines. -/
theorem C10_left_left_stop (l1 l2 : CStr) (fim : List CStr)
    (h1 : lerOpcao (some l1) = 101) (h2 : lerOpcao (some l2) = 101)
    (h3 : lerOpcao fim.head? = 115) :
    numEntradas (explorarSalasComPistas montarMapa .nil (l1 :: l2 :: fim)) = 2 ∧
    emOrdem (explorarSalasComPistas montarMapa .nil (l1 :: l2 :: fim)) =
      [(lit "Livro fora do lugar", 1), (lit "Pegadas de lama", 1)] ∧
    exibirPistas (explorarSalasComPistas montarMapa .nil (l1 :: l2 :: fim)) =
      [lit "- Livro fora do lugar\n", lit "- Pegadas de lama\n"] := by
  have hexp : explorarSalasComPistas montarMapa .nil (l1 :: l2 :: fim) =
      (laco montarMapa (coletar montarMapa .nil) (l1 :: l2 :: fim)).2.1 := rfl
  rw [hexp, laco_esquerda _ _ l1 _ h1 (by decide), laco_esquerda _ _ l2 _ h2 (by decide),
    laco_sair _ _ fim h3]
  exact ⟨by decide, by decide, by decide⟩

/-- Witness of C10: the three lines typed are e, e and s. -/
theorem C10_left_left_stop_witness :
    lerOpcao (some (lit "e\n")) = 101 ∧ lerOpcao (some (lit "e\n")) = 101 ∧
    lerOpcao [lit "s\n"].head? = 115 ∧
    numEntradas (explorarSalasComPistas montarMapa .nil [lit "e\n", lit "e\n", lit "s\n"])
      = 2 ∧
    emOrdem (explorarSalasComPistas montarMapa .nil [lit "e\n", lit "e\n", lit "s\n"]) =
      [(lit "Livro fora do lugar", 1), (lit "Pegadas de lama", 1)] ∧
    exibirPistas (explorarSalasComPistas montarMapa .nil [lit "e\n", lit "e\n", lit "s\n"]) =
      [lit "- Livro fora do lugar\n", lit "- Pegadas de lama\n"] :=
  ⟨by decide, by decide, by decide,
    C10_left_left_stop (lit "e\n") (lit "e\n") [lit "s\n"] (by decide) (by decide)
      (by decide)⟩

end Aventureiro

/-! ## Exploration of the Mestre map -/

namespace Mestre

theorem coletar_eq (atual : Sala) (pistas : PistaNode) :
    coletar atual pistas = inserirPista pistas (pistaDaSala atual.nome) := by
  unfold coletar
  cases h : pistaDaSala atual.nome with
  | none => cases pistas <;> rfl
  | some t =>
    cases t with
    | nil => cases pistas <;> rfl
    | cons c p => rfl

/-- A left or right command toward a missing child, and any command other than
e, d and s, send the loop back to its top in the same room, where the clue of
the room is collected once more. -/
theorem laco_sem_movimento (atual : Sala) (pistas : PistaNode) (linha : CStr)
    (resto : List CStr) (h : passo atual (lerOpcao (some linha)) = some atual) :
    laco atual pistas (linha :: resto) = laco atual (coletar atual pistas) resto := by
  simp [laco, h]

theorem laco_percurso (linhas : List CStr) (hall : Sala) (pistas : PistaNode)
    (salas : List Sala) (fim : List CStr)
    (hp : percurso hall (linhas.map (fun l => lerOpcao (some l))) = some salas)
    (hfim : lerOpcao fim.head? = 115) :
    (laco hall pistas (linhas ++ fim)).2.1 = salas.foldl (fun p s => coletar s p) pistas := by
  induction linhas generalizing hall pistas salas with
  | nil =>
    simp only [List.map_nil, percurso, Option.some.injEq] at hp
    subst hp
    cases fim with
    | nil => rfl
    | cons linha resto =>
      simp only [List.head?_cons] at hfim
      simp [laco, passo, hfim]
  | cons l ls ih =>
    simp only [List.map_cons, percurso] at hp
    split at hp
    · rename_i h1
      cases hr : percurso hall.esq (ls.map (fun l => lerOpcao (some l))) with
      | none => simp [hr] at hp
      | some resto' =>
        simp only [hr, Option.map_some', Option.some.injEq] at hp
        subst hp
        have hpasso : passo hall (lerOpcao (some l)) = some hall.esq := by
          simp [passo, h1.1, h1.2]
        simp only [List.cons_append, laco, hpasso, List.foldl_cons]
        exact ih hall.esq _ resto' hr
    · split at hp
      · rename_i h0 h1
        cases hr : percurso hall.dir (ls.map (fun l => lerOpcao (some l))) with
        | none => simp [hr] at hp
        | some resto' =>
          simp only [hr, Option.map_some', Option.some.injEq] at hp
          subst hp
          have hpasso : passo hall (lerOpcao (some l)) = some hall.dir := by
            simp [passo, h1.1, h1.2]
          simp only [List.cons_append, laco, hpasso, List.foldl_cons]
          exact ih hall.dir _ resto' hr
      · simp at hp

theorem foldl_inserir_filterMap (l : List (Option CStr)) (p : PistaNode) :
    (l.filterMap id |>.map some).foldl inserirPista p = l.foldl inserirPista p := by
  induction l generalizing p with
  | nil => rfl
  | cons o os ih =>
    cases o with
    | none =>
      have : inserirPista p none = p := by cases p <;> rfl
      simp [this, ih]
    | some t => simp [ih]

/-- C11: the code breaks the claim.  On the fixed map, after the commands d, d
the player is in Jardim, which has no left child, with "Luva de couro" counted
once; the further command e leaves the room unchanged but the clue tree then
holds "Luva de couro" with count 2. -/
theorem C11_blocked_move_recollects :
    montarMapa.dir.dir.esq = .nil ∧
    (laco montarMapa .nil [lit "d\n", lit "d\n", lit "s\n"]).1 = montarMapa.dir.dir ∧
    (laco montarMapa .nil [lit "d\n", lit "d\n", lit "e\n", lit "s\n"]).1 =
      montarMapa.dir.dir ∧
    emOrdem (explorarSalas montarMapa .nil (tabelaDoJogo 64)
        [lit "d\n", lit "d\n", lit "s\n"]) =
      [(lit "Luva de couro", 1), (lit "Pegadas de lama", 1), (lit "Perfume forte", 1)] ∧
    emOrdem (explorarSalas montarMapa .nil (tabelaDoJogo 64)
        [lit "d\n", lit "d\n", lit "e\n", lit "s\n"]) =
      [(lit "Luva de couro", 2), (lit "Pegadas de lama", 1), (lit "Perfume forte", 1)] := by
  refine ⟨by decide, by decide, by decide, by decide, by decide⟩

/-- C13: for every command sequence made only of moves to existing children
and ended by stop (the letter s or the end of the input), the clue tree after
`explorarSalas` on an empty tree is the tree obtained from the empty tree by
`inserirPista`, in visit order, of `pistaDaSala` of the name of each room
walked, the root included, the rooms without a clue being skipped. -/
theorem C13_tree_is_fold_over_path (hall : Sala) (ht : Option HashTable)
    (linhas fim : List CStr) (salas : List Sala) (hhall : hall ≠ .nil)
    (hp : percurso hall (linhas.map (fun l => lerOpcao (some l))) = some salas)
    (hfim : lerOpcao fim.head? = 115) :
    explorarSalas hall .nil ht (linhas ++ fim) =
      aposPistas ((salas.filterMap (fun s => pistaDaSala s.nome)).map some) ∧
    explorarSalas hall .nil ht (linhas ++ fim) =
      aposPistas (salas.map (fun s => pistaDaSala s.nome)) := by
  have hexp : explorarSalas hall .nil ht (linhas ++ fim) =
      (laco hall .nil (linhas ++ fim)).2.1 := by
    cases hall with
    | nil => exact absurd rfl hhall
    | node n e d => rfl
  have h2 : explorarSalas hall .nil ht (linhas ++ fim) =
      aposPistas (salas.map (fun s => pistaDaSala s.nome)) := by
    rw [hexp, laco_percurso linhas hall .nil salas fim hp hfim, aposPistas, List.foldl_map]
    congr 1
    funext p s
    exact coletar_eq s p
  refine ⟨?_, h2⟩
  rw [h2, aposPistas, aposPistas,
    ← foldl_inserir_filterMap (salas.map (fun s => pistaDaSala s.nome)), List.filterMap_map]
  rfl

/-- Witness of C13: from the hall, right, right, right reaches Estufa. -/
theorem C13_tree_is_fold_over_path_witness :
    montarMapa ≠ .nil ∧
    percurso montarMapa ([lit "d\n", lit "D\n", lit " direita\n"].map
      (fun l => lerOpcao (some l))) =
      some [montarMapa, montarMapa.dir, montarMapa.dir.dir, montarMapa.dir.dir.dir] ∧
    lerOpcao [lit "s\n"].head? = 115 ∧
    explorarSalas montarMapa .nil (tabelaDoJogo 64)
        ([lit "d\n", lit "D\n", lit " direita\n"] ++ [lit "s\n"]) =
      aposPistas (([montarMapa, montarMapa.dir, montarMapa.dir.dir,
        montarMapa.dir.dir.dir].filterMap (fun s => pistaDaSala s.nome)).map some) ∧
    explorarSalas montarMapa .nil (tabelaDoJogo 64)
        ([lit "d\n", lit "D\n", lit " direita\n"] ++ [lit "s\n"]) =
      aposPistas ([montarMapa, montarMapa.dir, montarMapa.dir.dir,
        montarMapa.dir.dir.dir].map (fun s => pistaDaSala s.nome)) :=
  ⟨by decide, by decide, by decide,
    C13_tree_is_fold_over_path montarMapa (tabelaDoJogo 64)
      [lit "d\n", lit "D\n", lit " direita\n"] [lit "s\n"]
      [montarMapa, montarMapa.dir, montarMapa.dir.dir, montarMapa.dir.dir.dir]
      (by decide) (by decide) (by decide)⟩

/-- C15: the code breaks the claim.  On the fixed map with the table of
`main`, the commands x (not a command) and s leave the player in the hall with
the single clue text "Pegadas de lama", counted twice; accusing "Jardineiro"
then gives CULPADO with total 2, although only one collected clue text is
associated with the accused. -/
theorem C15_guilty_with_one_clue :
    emOrdem (explorarSalas montarMapa .nil (tabelaDoJogo 64) [lit "x\n", lit "s\n"]) =
      [(lit "Pegadas de lama", 2)] ∧
    verificarSuspeitoFinal 64
        (explorarSalas montarMapa .nil (tabelaDoJogo 64) [lit "x\n", lit "s\n"])
        (tabelaDoJogo 64) [lit "Jardineiro\n"] = .culpado 2 (lit "Jardineiro") ∧
    ((emOrdem (explorarSalas montarMapa .nil (tabelaDoJogo 64)
        [lit "x\n", lit "s\n"])).filter
      (fun e => decide (encontrarSuspeito 64 (tabelaDoJogo 64) (some e.1) =
        some (lit "Jardineiro")))).length = 1 := by
  refine ⟨by decide, by decide, by decide⟩

end Mestre

/-! ## Reading a command -/

theorem fgets_fim : fgets 64 [] = none := rfl

/-- C14: the code breaks the claim.  The next line is 63 spaces followed by
the letter e: its first non-whitespace character is e, which stands for left;
`fgets` stores the 63 spaces only, so `lerOpcao` of each of the three programs
returns the letter s (stop) and leaves the letter e unread. -/
theorem C14_long_line_is_read_as_stop :
    proximaLinha (List.replicate 63 32 ++ lit "e\n") = List.replicate 63 32 ++ lit "e\n" ∧
    primeiroNaoEspaco (proximaLinha (List.replicate 63 32 ++ lit "e\n")) = some 101 ∧
    opcaoDe (proximaLinha (List.replicate 63 32 ++ lit "e\n")) = 101 ∧
    fgets 64 (List.replicate 63 32 ++ lit "e\n") = some (List.replicate 63 32, lit "e\n") ∧
    Aventureiro.lerOpcao ((fgets 64 (List.replicate 63 32 ++ lit "e\n")).map Prod.fst) = 115 ∧
    Mestre.lerOpcao ((fgets 64 (List.replicate 63 32 ++ lit "e\n")).map Prod.fst) = 115 ∧
    Novato.lerOpcao ((fgets 64 (List.replicate 63 32 ++ lit "e\n")).map Prod.fst) = 115 := by
  refine ⟨by decide, by decide, by decide, by decide, by decide, by decide, by decide⟩

namespace Aventureiro

/-- C12: the code breaks the claim.  In the hall, the line made of 63 spaces
followed by the letter x has x, none of e, d, s, as first non-whitespace
character, yet on reading it the loop of `explorarSalasComPistas` breaks and
the exploration ends.  And the line made of x, 62 spaces and s is taken in two
reads: the first is not recognized, the second is read as the letter s and
ends the exploration. -/
theorem C12_long_line_ends_exploration :
    primeiroNaoEspaco (proximaLinha (List.replicate 63 32 ++ lit "x\n")) = some 120 ∧
    passo montarMapa (coletar montarMapa .nil)
      (lerOpcao ((fgets 64 (List.replicate 63 32 ++ lit "x\n")).map Prod.fst)) = none ∧
    primeiroNaoEspaco (proximaLinha (120 :: List.replicate 62 32 ++ lit "s\n")) = some 120 ∧
    fgets 64 (120 :: List.replicate 62 32 ++ lit "s\n") =
      some (120 :: List.replicate 62 32, lit "s\n") ∧
    passo montarMapa (coletar montarMapa .nil) (lerOpcao (some (120 :: List.replicate 62 32))) =
      some (montarMapa, coletar montarMapa .nil) ∧
    passo montarMapa (coletar montarMapa .nil)
      (lerOpcao ((fgets 64 (lit "s\n")).map Prod.fst)) = none := by
  refine ⟨by decide, by decide, by decide, by decide, by decide, by decide⟩

end Aventureiro

/-! ## Invariants of the clue tree -/

theorem ordenada_node_iff (t : CStr) (c : Int) (l d : PistaNode) :
    Ordenada (.node t c l d) ↔
      Ordenada l ∧ Ordenada d ∧ (∀ y ∈ textosDe l, strcmp y t < 0) ∧
        (∀ y ∈ textosDe d, 0 < strcmp y t) := by
  simp only [Ordenada, antes]
  constructor
  · rintro ⟨h1, h2, h3, h4⟩
    exact ⟨h1, h2, h3, fun y hy => (strcmp_neg_iff_pos t y).mp (h4 y hy)⟩
  · rintro ⟨h1, h2, h3, h4⟩
    exact ⟨h1, h2, h3, fun y hy => (strcmp_neg_iff_pos t y).mpr (h4 y hy)⟩

/-- C16: every clue tree built from the empty tree by any sequence of
`inserirPista` calls satisfies the search-tree ordering at every node (all
texts of the left subtree compare strictly less than the node's text, all
texts of the right subtree strictly greater, for `strcmp`), and `inserirPista`
preserves this ordering. -/
theorem C16_search_tree_ordering (textos : List (Option CStr)) (r : PistaNode)
    (o : Option CStr) (h : Ordenada r) :
    Ordenada (aposPistas textos) ∧ Ordenada (inserirPista r o) ∧
    (∀ (t : CStr) (c : Int) (l d : PistaNode),
      Ordenada (.node t c l d) ↔
        Ordenada l ∧ Ordenada d ∧ (∀ y ∈ textosDe l, strcmp y t < 0) ∧
          (∀ y ∈ textosDe d, 0 < strcmp y t)) :=
  ⟨ordenada_aposPistas textos, ordenada_inserir r o h, ordenada_node_iff⟩

/-- Witness of C16: a tree of three clues, which gets a fourth. -/
theorem C16_search_tree_ordering_witness :
    Ordenada (aposPistas [some (lit "Luva de couro"), some (lit "Adega"),
      some (lit "Perfume forte")]) ∧
    Ordenada (inserirPista (aposPistas [some (lit "Luva de couro"), some (lit "Adega"),
      some (lit "Perfume forte")]) (some (lit "Janela entreaberta"))) :=
  ⟨ordenada_aposPistas _,
    (C16_search_tree_ordering [] (aposPistas [some (lit "Luva de couro"), some (lit "Adega"),
      some (lit "Perfume forte")]) (some (lit "Janela entreaberta"))
      (ordenada_aposPistas _)).2.1⟩

theorem entradas_inserir (r : PistaNode) (o : Option CStr)
    (h : ∀ e ∈ listar r, e.1 ≠ [] ∧ 1 ≤ e.2) :
    ∀ e ∈ listar (inserirPista r o), e.1 ≠ [] ∧ 1 ≤ e.2 := by
  cases o with
  | none => cases r <;> simpa [inserirPista] using h
  | some t =>
    cases t with
    | nil => cases r <;> simpa [inserirPista] using h
    | cons c s =>
      induction r with
      | nil =>
        intro e he
        simp only [inserirPista, listar, List.nil_append, List.mem_singleton] at he
        subst he
        simp
      | node x n l d ihl ihd =>
        have hl : ∀ e ∈ listar l, e.1 ≠ [] ∧ 1 ≤ e.2 := fun e he =>
          h e (by simp [listar, he])
        have hd : ∀ e ∈ listar d, e.1 ≠ [] ∧ 1 ≤ e.2 := fun e he =>
          h e (by simp [listar, he])
        have hx : x ≠ [] ∧ 1 ≤ n := h (x, n) (by simp [listar])
        intro e he
        simp only [inserirPista] at he
        split at he
        · simp only [listar, List.mem_append, List.mem_cons] at he
          rcases he with he | he | he
          · exact hl e he
          · subst he
            exact ⟨hx.1, by have := hx.2; simp only; omega⟩
          · exact hd e he
        · split at he
          · simp only [listar, List.mem_append, List.mem_cons] at he
            rcases he with he | he | he
            · exact ihl hl e he
            · subst he
              exact hx
            · exact hd e he
          · simp only [listar, List.mem_append, List.mem_cons] at he
            rcases he with he | he | he
            · exact hl e he
            · subst he
              exact hx
            · exact ihd hd e he

theorem entradas_foldl (textos : List (Option CStr)) (r : PistaNode)
    (h : ∀ e ∈ listar r, e.1 ≠ [] ∧ 1 ≤ e.2) :
    ∀ e ∈ listar (textos.foldl inserirPista r), e.1 ≠ [] ∧ 1 ≤ e.2 := by
  induction textos generalizing r with
  | nil => exact h
  | cons o os ih => exact ih _ (entradas_inserir r o h)

/-- C17 as stated fails: after the single call of `inserirPista` with the text
made of one space, the tree has an entry whose text is blank. -/
theorem C17_blank_entry_counterexample :
    emOrdem (aposPistas [some [32]]) = [([32], 1)] ∧ soEspacos [32] ∧
    ¬ (∀ (textos : List (Option CStr)), ∀ e ∈ emOrdem (aposPistas textos),
        e.1 ≠ [] ∧ ¬ soEspacos e.1 ∧ 1 ≤ e.2) := by
  have hs : soEspacos [32] := by unfold soEspacos; decide
  refine ⟨by decide, hs, ?_⟩
  intro h
  have h1 := h [some [32]] ([32], 1) (by decide)
  exact h1.2.1 hs

/-- C17 amended: every entry of a clue tree built from the empty tree by any
sequence of `inserirPista` calls, with any arguments, has a non-empty text and
a count of at least 1 (counts as unbounded integers). -/
theorem C17_entries_nonempty_counted (textos : List (Option CStr)) :
    ∀ e ∈ emOrdem (aposPistas textos), e.1 ≠ [] ∧ 1 ≤ e.2 := by
  rw [emOrdem_eq_listar]
  exact entradas_foldl textos .nil (by simp [listar])

/-- Witness of C17: a clue collected twice, among null and empty arguments. -/
theorem C17_entries_nonempty_counted_witness :
    (lit "Adega", (2 : Int)) ∈
      emOrdem (aposPistas [some (lit "Adega"), none, some [], some (lit "Adega")]) ∧
    lit "Adega" ≠ [] ∧ (1 : Int) ≤ 2 :=
  ⟨by decide,
    C17_entries_nonempty_counted [some (lit "Adega"), none, some [], some (lit "Adega")]
      (lit "Adega", 2) (by decide)⟩

/-! ## The hash and the bucket index -/

theorem djb2Loop_eq (w : Nat) (h : Nat) (s : CStr) :
    djb2Loop w h s = hashPolinomial w h s := by
  induction s generalizing h with
  | nil => rfl
  | cons c t ih =>
    have hstep : (((h * 2 ^ 5) % 2 ^ w + h) % 2 ^ w + c) % 2 ^ w = (h * 33 + c) % 2 ^ w := by
      rw [Nat.mod_add_mod, Nat.add_assoc, Nat.mod_add_mod]
      congr 1
      omega
    simp only [djb2Loop, hashPolinomial, List.foldl_cons, hstep]
    exact ih _

theorem inserir_outros_buckets (w : Nat) (ht ht' : HashTable) (k v : CStr)
    (h : inserirNaHash w (some ht) (some k) (some v) = some ht') (i : Nat)
    (hi : i ≠ djb2 w k % ht.capacidade) :
    ht'.buckets.getD i [] = ht.buckets.getD i [] := by
  simp only [inserirNaHash] at h
  cases hr : atualizarCadeia k v (ht.buckets.getD (djb2 w k % ht.capacidade) []) with
  | none =>
    simp only [hr, Option.some.injEq] at h
    subst h
    exact getD_set_outro _ _ _ _ (fun e => hi e.symm)
  | some c =>
    simp only [hr, Option.some.injEq] at h
    subst h
    exact getD_set_outro _ _ _ _ (fun e => hi e.symm)

/-- C18: for every byte string, `djb2` is the polynomial hash with multiplier
33 modulo `2 ^ w` started at 5381 (reduced modulo `2 ^ w`, which changes
nothing from 13 bits on); for every capacity `> 0` the bucket index
`djb2 mod capacidade` is smaller than the capacity, it is the bucket that
`encontrarSuspeito` searches, and `inserirNaHash` changes no other bucket. -/
theorem C18_djb2_polynomial (w : Nat) (s : CStr) (ht : HashTable)
    (hcap : 0 < ht.capacidade) :
    djb2 w s = hashPolinomial w (5381 % 2 ^ w) s ∧
    (13 ≤ w → djb2 w s = hashPolinomial w 5381 s) ∧
    djb2 w s % ht.capacidade < ht.capacidade ∧
    encontrarSuspeito w (some ht) (some s) =
      buscarNaCadeia s (ht.buckets.getD (djb2 w s % ht.capacidade) []) ∧
    (∀ (v : CStr) (ht' : HashTable),
      inserirNaHash w (some ht) (some s) (some v) = some ht' →
      ∀ i, i ≠ djb2 w s % ht.capacidade → ht'.buckets.getD i [] = ht.buckets.getD i []) := by
  refine ⟨djb2Loop_eq w _ s, ?_, Nat.mod_lt _ hcap, rfl, ?_⟩
  · intro hw
    have h13 : 5381 < 2 ^ w :=
      lt_of_lt_of_le (by norm_num) (Nat.pow_le_pow_right (by norm_num) hw)
    unfold djb2
    rw [Nat.mod_eq_of_lt h13]
    exact djb2Loop_eq w _ s
  · intro v ht' h i hi
    exact inserir_outros_buckets w ht ht' s v h i hi

/-- Witness of C18: the key "Pegadas de lama" on a fresh table of 101 buckets
with a 64-bit `unsigned long`. -/
theorem C18_djb2_polynomial_witness :
    0 < (criarHash 101).capacidade ∧
    djb2 64 (lit "Pegadas de lama") = hashPolinomial 64 (5381 % 2 ^ 64) (lit "Pegadas de lama") ∧
    djb2 64 (lit "Pegadas de lama") % (criarHash 101).capacidade <
      (criarHash 101).capacidade :=
  ⟨by decide,
    (C18_djb2_polynomial 64 (lit "Pegadas de lama") (criarHash 101) (by decide)).1,
    (C18_djb2_polynomial 64 (lit "Pegadas de lama") (criarHash 101) (by decide)).2.2.1⟩

/-! ## Exploration of the Novato map -/

namespace Novato

theorem mem_salasDe_self (s : Sala) (h : s ≠ .nil) : s ∈ salasDe s := by
  cases s with
  | nil => exact absurd rfl h
  | node n e d => simp [salasDe]

theorem salasDe_esq_sub (s : Sala) : ∀ x ∈ salasDe s.esq, x ∈ salasDe s := by
  intro x hx
  cases s with
  | nil => simp [Sala.esq, salasDe] at hx
  | node n e d =>
    simp only [Sala.esq] at hx
    simp [salasDe, hx]

theorem salasDe_dir_sub (s : Sala) : ∀ x ∈ salasDe s.dir, x ∈ salasDe s := by
  intro x hx
  cases s with
  | nil => simp [Sala.dir, salasDe] at hx
  | node n e d =>
    simp only [Sala.dir] at hx
    simp [salasDe, hx]

theorem mover_sub (atual : Sala) (op : Nat) :
    ∀ x ∈ salasDe (mover atual op), x ∈ salasDe atual := by
  intro x hx
  unfold mover at hx
  split at hx
  · split at hx
    · exact salasDe_esq_sub atual x hx
    · exact hx
  · split at hx
    · split at hx
      · exact salasDe_dir_sub atual x hx
      · exact hx
    · exact hx

theorem nao_folha_ne_nil (atual : Sala) (h : ¬ (atual.esq = .nil ∧ atual.dir = .nil)) :
    atual ≠ .nil := by
  intro hn
  apply h
  rw [hn]
  exact ⟨rfl, rfl⟩

theorem consultas_nao_folha (entrada : List CStr) (atual : Sala) (trajeto : List CStr) :
    ∀ n ∈ (laco atual trajeto entrada).consultas,
      ∃ s ∈ salasDe atual, s.nome = n ∧ ¬ (s.esq = .nil ∧ s.dir = .nil) := by
  induction entrada generalizing atual trajeto with
  | nil =>
    intro n hn
    simp only [laco] at hn
    split at hn
    · simp at hn
    · rename_i hf
      simp only [List.mem_singleton] at hn
      exact ⟨atual, mem_salasDe_self atual (nao_folha_ne_nil atual hf), hn.symm, hf⟩
  | cons linha resto ih =>
    intro n hn
    simp only [laco] at hn
    split at hn
    · simp at hn
    · rename_i hf
      split at hn
      · simp only [List.mem_singleton] at hn
        exact ⟨atual, mem_salasDe_self atual (nao_folha_ne_nil atual hf), hn.symm, hf⟩
      · simp only [List.mem_cons] at hn
        rcases hn with hn | hn
        · exact ⟨atual, mem_salasDe_self atual (nao_folha_ne_nil atual hf), hn.symm, hf⟩
        · obtain ⟨s, hs, hsn, hsf⟩ := ih _ _ n hn
          exact ⟨s, mover_sub atual _ s hs, hsn, hsf⟩

theorem laco_folha (atual : Sala) (trajeto entrada : List CStr)
    (hesq : atual.esq = .nil) (hdir : atual.dir = .nil) :
    laco atual trajeto entrada =
      { trajeto := registrar atual trajeto, consultas := [], resto := entrada } := by
  cases entrada with
  | nil => simp [laco, hesq, hdir]
  | cons linha resto => simp [laco, hesq, hdir]

/-- C19: in `explorarSalas` of the Novato program, when the current room has
neither child the loop ends at once: the room is recorded, `mostrarOpcoes` and
`lerOpcao` are not called and the input is left as it was; so on the fixed
map, whatever the input, no command is read in Adega, Deposito, Despensa,
Escritorio or Estufa, which are rooms without children. -/
theorem C19_leaf_ends_exploration (atual : Sala) (trajeto entrada : List CStr)
    (hesq : atual.esq = .nil) (hdir : atual.dir = .nil) :
    (laco atual trajeto entrada).resto = entrada ∧
    (laco atual trajeto entrada).consultas = [] ∧
    (laco atual trajeto entrada).trajeto = registrar atual trajeto ∧
    (∀ s ∈ salasDe montarMapa,
      s.nome ∈ [lit "Adega", lit "Deposito", lit "Despensa", lit "Escritorio", lit "Estufa"] →
        s.esq = .nil ∧ s.dir = .nil) ∧
    (∀ (comandos : List CStr), ∀ n ∈ (explorarSalas montarMapa comandos).consultas,
      n ∉ [lit "Adega", lit "Deposito", lit "Despensa", lit "Escritorio", lit "Estufa"]) := by
  have hfolhas : ∀ s ∈ salasDe montarMapa,
      s.nome ∈ [lit "Adega", lit "Deposito", lit "Despensa", lit "Escritorio", lit "Estufa"] →
        s.esq = .nil ∧ s.dir = .nil := by decide
  rw [laco_folha atual trajeto entrada hesq hdir]
  refine ⟨rfl, rfl, rfl, hfolhas, ?_⟩
  intro comandos n hn hmem
  have hexp : explorarSalas montarMapa comandos = laco montarMapa [] comandos := rfl
  rw [hexp] at hn
  obtain ⟨s, hs, hsn, hsf⟩ := consultas_nao_folha comandos montarMapa [] n hn
  rw [← hsn] at hmem
  exact hsf (hfolhas s hs hmem)

/-- Witness of C19: Adega, reached by three moves to the left, with two
commands still unread. -/
theorem C19_leaf_ends_exploration_witness :
    montarMapa.esq.esq.esq.esq = .nil ∧ montarMapa.esq.esq.esq.dir = .nil ∧
    (laco montarMapa.esq.esq.esq [] [lit "d\n", lit "s\n"]).resto = [lit "d\n", lit "s\n"] ∧
    (laco montarMapa.esq.esq.esq [] [lit "d\n", lit "s\n"]).consultas = [] :=
  ⟨by decide, by decide,
    (C19_leaf_ends_exploration montarMapa.esq.esq.esq [] [lit "d\n", lit "s\n"]
      (by decide) (by decide)).1,
    (C19_leaf_ends_exploration montarMapa.esq.esq.esq [] [lit "d\n", lit "s\n"]
      (by decide) (by decide)).2.1⟩

/-- C20: the code breaks the claim.  On the fixed map, the commands x (not a
command) and s give the trail hall, hall: the second element is not a child of
the first and the hall is listed twice.  Likewise e, d, e, s, whose last move
is toward the missing left child of Cozinha, lists Cozinha twice. -/
theorem C20_trail_repeats_room :
    (explorarSalas montarMapa [lit "x\n", lit "s\n"]).trajeto =
      [lit "Hall de entrada", lit "Hall de entrada"] ∧
    (explorarSalas montarMapa [lit "e\n", lit "d\n", lit "e\n", lit "s\n"]).trajeto =
      [lit "Hall de entrada", lit "Sala de Estar", lit "Cozinha", lit "Cozinha"] ∧
    montarMapa.esq.nome ≠ lit "Hall de entrada" ∧
    montarMapa.dir.nome ≠ lit "Hall de entrada" := by
  refine ⟨by decide, by decide, by decide, by decide⟩

end Novato

/-! ## Trimming the accused name -/

theorem rstripLoop_eq (s : CStr) (n : Nat) (hn : n ≤ s.length) :
    rstripLoop s n = (s.take n).rdropWhile isspace := by
  induction n with
  | zero => simp [rstripLoop]
  | succ n ih =>
    have hlt : n < s.length := by omega
    have htake : s.take (n + 1) = s.take n ++ [s[n]] := by
      rw [List.take_succ, List.getElem?_eq_getElem hlt]
      rfl
    have hget : s.getD n 0 = s[n] := by
      simp [List.getD_eq_getElem?_getD, List.getElem?_eq_getElem hlt]
    simp only [rstripLoop, hget]
    rw [htake, List.rdropWhile_concat]
    split
    · exact ih (by omega)
    · rfl

theorem rstrip_eq (s : CStr) : rstrip s = s.rdropWhile isspace := by
  rw [rstrip, rstripLoop_eq s s.length (le_refl _), List.take_length]

theorem rdropWhile_decomp (p : Nat → Bool) (l : List Nat) :
    l = l.rdropWhile p ++ l.rtakeWhile p := by
  induction l using List.reverseRecOn with
  | nil => simp
  | append_singleton l a ih =>
    rw [List.rdropWhile_concat, List.rtakeWhile_concat]
    split
    · rw [← List.append_assoc, ← ih]
    · simp

theorem rstrip_sufixo (s : CStr) :
    ∃ t, s = rstrip s ++ t ∧ ∀ c ∈ t, isspace c = true := by
  refine ⟨s.rtakeWhile isspace, ?_, fun c hc => List.mem_rtakeWhile_imp hc⟩
  rw [rstrip_eq]
  exact rdropWhile_decomp isspace s

theorem rstrip_ultimo (s : CStr) (c : Nat) (h : (rstrip s).getLast? = some c) :
    isspace c = false := by
  rw [rstrip_eq] at h
  have hne : s.rdropWhile isspace ≠ [] := by
    intro h0
    rw [h0] at h
    simp at h
  have hnot := List.rdropWhile_last_not isspace s hne
  rw [List.getLast?_eq_getLast _ hne, Option.some.injEq] at h
  rw [h] at hnot
  simpa using hnot

theorem rstrip_mais_longo (s p : CStr) (hp : p <+: s)
    (hlast : ∀ c, p.getLast? = some c → isspace c = false) :
    p.length ≤ (rstrip s).length := by
  obtain ⟨t, hst, ht⟩ := rstrip_sufixo s
  by_contra hlen
  have hlt : (rstrip s).length < p.length := by omega
  obtain ⟨q, hq⟩ := hp
  have hpre : rstrip s <+: p := by
    have h1 : rstrip s <+: s := ⟨t, hst.symm⟩
    have h2 : p <+: s := ⟨q, hq⟩
    exact List.prefix_of_prefix_length_le h1 h2 (by omega)
  obtain ⟨u, hu⟩ := hpre
  have hune : u ≠ [] := by
    intro h0
    rw [h0, List.append_nil] at hu
    rw [hu] at hlt
    omega
  have hut : u <+: t := by
    have h3 : rstrip s ++ (u ++ q) = rstrip s ++ t := by
      rw [← List.append_assoc, hu, hq]
      exact hst
    exact ⟨q, List.append_cancel_left h3⟩
  have hlastu : p.getLast? = some (u.getLast hune) := by
    rw [← hu, List.getLast?_append_of_ne_nil _ hune, List.getLast?_eq_getLast _ hune]
  have hsp := ht _ (hut.subset (List.getLast_mem hune))
  have := hlast _ hlastu
  rw [hsp] at this
  exact absurd this (by decide)

/-- C21: for every string `s`, `rstrip` of `s` is the longest prefix of `s`
that does not end in a whitespace character: it is a prefix of `s`, what it
leaves out is made of whitespace only, it does not end in whitespace, every
prefix of `s` that does not end in whitespace is at most as long, and
applying `rstrip` twice gives the same as applying it once. -/
theorem C21_rstrip_trims_trailing_space (s p : CStr) (hp : p <+: s)
    (hlast : ∀ c, p.getLast? = some c → isspace c = false) :
    rstrip s <+: s ∧
    (∃ t, s = rstrip s ++ t ∧ ∀ c ∈ t, isspace c = true) ∧
    (∀ c, (rstrip s).getLast? = some c → isspace c = false) ∧
    p.length ≤ (rstrip s).length ∧
    rstrip (rstrip s) = rstrip s ∧
    (∀ c, isspace c = true ↔ c ∈ [32, 9, 10, 13, 11, 12]) := by
  refine ⟨?_, rstrip_sufixo s, rstrip_ultimo s, rstrip_mais_longo s p hp hlast, ?_, ?_⟩
  · obtain ⟨t, ht, _⟩ := rstrip_sufixo s
    exact ⟨t, ht.symm⟩
  · rw [rstrip_eq, rstrip_eq, List.rdropWhile_idempotent]
  · intro c
    simp only [isspace, Bool.or_eq_true, beq_iff_eq, Bool.and_eq_true, decide_eq_true_eq,
      List.mem_cons, List.mem_singleton, List.not_mem_nil, or_false]
    omega

/-- Witness of C21: a name with leading, inner and trailing whitespace. -/
theorem C21_rstrip_trims_trailing_space_witness :
    lit " Sr. Mostarda" <+: lit " Sr. Mostarda \t\r\n" ∧
    (∀ c, (lit " Sr. Mostarda").getLast? = some c → isspace c = false) ∧
    rstrip (lit " Sr. Mostarda \t\r\n") = lit " Sr. Mostarda" ∧
    (lit " Sr. Mostarda").length ≤ (rstrip (lit " Sr. Mostarda \t\r\n")).length :=
  ⟨by decide, by decide, by decide,
    (C21_rstrip_trims_trailing_space (lit " Sr. Mostarda \t\r\n") (lit " Sr. Mostarda")
      (by decide) (by decide)).2.2.2.1⟩

/-- C24: for every table whose bucket array has `capacidade > 0` cells, every
two distinct clue texts `k` and `k2` and every suspect `v`,
`encontrarSuspeito` of `k2` gives the same after `inserirNaHash` of `k` and `v`
as before it, whatever the buckets of the two keys. -/
theorem C24_lookup_of_other_key (w : Nat) (ht : HashTable) (k k2 v : CStr)
    (_hwf : BemFormada ht) (_hcap : 0 < ht.capacidade) (hk : k ≠ k2) :
    encontrarSuspeito w (inserirNaHash w (some ht) (some k) (some v)) (some k2) =
      encontrarSuspeito w (some ht) (some k2) :=
  encontrar_apos_inserir_outro w ht k v k2 hk

/-- Witness of C24: a single bucket, so both keys share it; the other key is
stored and keeps its suspect. -/
theorem C24_lookup_of_other_key_witness :
    BemFormada { capacidade := 1, buckets := [[⟨lit "Luva", lit "Sr. Mostarda"⟩]] } ∧
    0 < (1 : Nat) ∧ lit "Terra" ≠ lit "Luva" ∧
    encontrarSuspeito 64
      (inserirNaHash 64
        (some { capacidade := 1, buckets := [[⟨lit "Luva", lit "Sr. Mostarda"⟩]] })
        (some (lit "Terra")) (some (lit "Jardineiro")))
      (some (lit "Luva")) =
    encontrarSuspeito 64
      (some { capacidade := 1, buckets := [[⟨lit "Luva", lit "Sr. Mostarda"⟩]] })
      (some (lit "Luva")) :=
  ⟨rfl, by decide, by decide,
    C24_lookup_of_other_key 64
      { capacidade := 1, buckets := [[⟨lit "Luva", lit "Sr. Mostarda"⟩]] }
      (lit "Terra") (lit "Luva") (lit "Jardineiro") rfl (by decide) (by decide)⟩

/-! ## The one change that an insertion makes to the listing -/

theorem textosDe_mem_iff (r : PistaNode) (t : CStr) :
    t ∈ textosDe r ↔ ∃ n, (t, n) ∈ listar r := by
  simp [textosDe]

theorem somaCounts_eq_sum (r : PistaNode) :
    somaCounts r = ((listar r).map Prod.snd).sum := by
  induction r with
  | nil => rfl
  | node x n l d ihl ihd =>
    simp only [somaCounts, listar, List.map_append, List.map_cons, List.sum_append,
      List.sum_cons, ihl, ihd]
    omega

theorem listar_inserir (r : PistaNode) (c : Nat) (s : CStr) (h : Ordenada r) :
    (∃ l1 n l2, listar r = l1 ++ (c :: s, n) :: l2 ∧
      listar (inserirPista r (some (c :: s))) = l1 ++ (c :: s, n + 1) :: l2) ∨
    ((c :: s) ∉ textosDe r ∧
      ∃ l1 l2, listar r = l1 ++ l2 ∧
        listar (inserirPista r (some (c :: s))) = l1 ++ (c :: s, 1) :: l2 ∧
        (∀ e ∈ l1, antes e.1 (c :: s)) ∧ (∀ e ∈ l2, antes (c :: s) e.1)) := by
  induction r with
  | nil =>
    right
    refine ⟨by simp [textosDe, listar], [], [], rfl, rfl, ?_, ?_⟩ <;> simp
  | node x n l d ihl ihd =>
    obtain ⟨hl, hd, hlt, hgt⟩ := h
    simp only [inserirPista]
    split
    · rename_i heq
      have hx : c :: s = x := (strcmp_eq_zero_iff _ _).mp heq
      left
      exact ⟨listar l, n, listar d, by simp [listar, hx], by simp [listar, hx]⟩
    · rename_i hne
      have hnx : c :: s ≠ x := fun e => hne ((strcmp_eq_zero_iff _ _).mpr e)
      split
      · rename_i hneg
        have htx : antes (c :: s) x := hneg
        rcases ihl hl with ⟨l1, m, l2, h1, h2⟩ | ⟨hnot, l1, l2, h1, h2, h3, h4⟩
        · left
          exact ⟨l1, m, l2 ++ (x, n) :: listar d, by simp [listar, h1], by simp [listar, h2]⟩
        · right
          refine ⟨?_, l1, l2 ++ (x, n) :: listar d, by simp [listar, h1],
            by simp [listar, h2], h3, ?_⟩
          · rw [textosDe_node]
            simp only [List.mem_append, List.mem_cons, not_or]
            refine ⟨hnot, hnx, ?_⟩
            intro hmem
            exact antes_irrefl _ (antes_trans htx (hgt _ hmem))
          · intro e he
            simp only [List.mem_append, List.mem_cons] at he
            rcases he with he | he | he
            · exact h4 e he
            · rw [he]
              exact htx
            · exact antes_trans htx (hgt e.1 (List.mem_map_of_mem _ he))
      · rename_i hnneg
        have hxt : antes x (c :: s) := antes_of_not _ _ hne hnneg
        rcases ihd hd with ⟨l1, m, l2, h1, h2⟩ | ⟨hnot, l1, l2, h1, h2, h3, h4⟩
        · left
          exact ⟨listar l ++ (x, n) :: l1, m, l2, by simp [listar, h1], by simp [listar, h2]⟩
        · right
          refine ⟨?_, listar l ++ (x, n) :: l1, l2, by simp [listar, h1],
            by simp [listar, h2], ?_, h4⟩
          · rw [textosDe_node]
            simp only [List.mem_append, List.mem_cons, not_or]
            refine ⟨?_, hnx, hnot⟩
            intro hmem
            exact antes_irrefl _ (antes_trans (hlt _ hmem) hxt)
          · intro e he
            simp only [List.mem_append, List.mem_cons] at he
            rcases he with he | he | he
            · exact antes_trans (hlt e.1 (List.mem_map_of_mem _ he)) hxt
            · rw [he]
              exact hxt
            · exact h3 e he

/-- C22 as stated fails: in the ordered tree whose single entry has the count
`INT_MAX`, `inserirPista` of the text of that entry does not raise the count
by 1: the `int` count becomes -2147483648 and the sum of the counts does not
grow by 1. -/
theorem C22_overflow_counterexample :
    Ordenada (.node [97] 2147483647 .nil .nil) ∧
    emOrdem (.node [97] 2147483647 .nil .nil) = [([97], 2147483647)] ∧
    emOrdem (inserirPistaInt (.node [97] 2147483647 .nil .nil) (some [97])) =
      [([97], -2147483648)] ∧
    ((emOrdem (inserirPistaInt (.node [97] 2147483647 .nil .nil) (some [97]))).map
      Prod.snd).sum ≠
      ((emOrdem (.node [97] 2147483647 .nil .nil)).map Prod.snd).sum + 1 := by
  refine ⟨?_, by decide, by decide, by decide⟩
  simp [Ordenada, textosDe, listar]

/-- C22 amended: for every clue tree with the search-tree ordering and every
non-empty text `t` whose count in the tree, if it has one, is an `int` below
`INT_MAX`, the in-order listing after `inserirPista` of `t` is the listing
before with one change: when `t` was present, its entry has its count raised
by 1 in place; otherwise the pair of `t` and 1 is put between the entries that
sort before `t` and those that sort after it; every other entry is as before,
and the sum of all counts grows by exactly 1. -/
theorem C22_insertion_changes_one_entry (r : PistaNode) (t : CStr) (h : Ordenada r)
    (ht : t ≠ [])
    (hint : ∀ e ∈ emOrdem r, e.1 = t → INT_MIN ≤ e.2 ∧ e.2 < INT_MAX) :
    (t ∈ (emOrdem r).map Prod.fst →
      ∃ l1 n l2, emOrdem r = l1 ++ (t, n) :: l2 ∧
        emOrdem (inserirPistaInt r (some t)) = l1 ++ (t, n + 1) :: l2) ∧
    (t ∉ (emOrdem r).map Prod.fst →
      ∃ l1 l2, emOrdem r = l1 ++ l2 ∧
        emOrdem (inserirPistaInt r (some t)) = l1 ++ (t, 1) :: l2 ∧
        (∀ e ∈ l1, strcmp e.1 t < 0) ∧ (∀ e ∈ l2, strcmp t e.1 < 0)) ∧
    ((emOrdem (inserirPistaInt r (some t))).map Prod.snd).sum =
      ((emOrdem r).map Prod.snd).sum + 1 := by
  have heq : inserirPistaInt r (some t) = inserirPista r (some t) := by
    apply inserirPistaInt_eq
    intro e he het
    rw [emOrdem_eq_listar] at hint
    have := hint e he het
    unfold INT_MIN INT_MAX at this
    exact this
  rw [heq]
  cases t with
  | nil => exact absurd rfl ht
  | cons c s =>
    simp only [emOrdem_eq_listar]
    refine ⟨?_, ?_, ?_⟩
    · intro hmem
      rcases listar_inserir r c s h with h1 | ⟨hnot, _⟩
      · exact h1
      · exact absurd hmem hnot
    · intro hnot
      rcases listar_inserir r c s h with ⟨l1, n, l2, h1, _⟩ | ⟨_, h2⟩
      · exact absurd (by simp [h1]) hnot
      · exact h2
    · rw [← somaCounts_eq_sum, ← somaCounts_eq_sum]
      exact somaCounts_inserir r c s

/-- Witness of C22: a present text, whose count goes from 1 to 2. -/
theorem C22_insertion_changes_one_entry_witness :
    Ordenada (aposPistasInt [some (lit "Luva"), some (lit "Adega"), some (lit "Terra")]) ∧
    lit "Luva" ≠ [] ∧
    (∀ e ∈ emOrdem (aposPistasInt [some (lit "Luva"), some (lit "Adega"),
        some (lit "Terra")]), e.1 = lit "Luva" → INT_MIN ≤ e.2 ∧ e.2 < INT_MAX) ∧
    ((emOrdem (inserirPistaInt
        (aposPistasInt [some (lit "Luva"), some (lit "Adega"), some (lit "Terra")])
        (some (lit "Luva")))).map Prod.snd).sum =
      ((emOrdem (aposPistasInt [some (lit "Luva"), some (lit "Adega"),
        some (lit "Terra")])).map Prod.snd).sum + 1 :=
  ⟨by simp [aposPistasInt, inserirPistaInt, Ordenada, textosDe, listar, antes]; decide,
    by decide, by decide,
    (C22_insertion_changes_one_entry
      (aposPistasInt [some (lit "Luva"), some (lit "Adega"), some (lit "Terra")])
      (lit "Luva")
      (by simp [aposPistasInt, inserirPistaInt, Ordenada, textosDe, listar, antes]; decide)
      (by decide) (by decide)).2.2⟩

/-! ## The bound of the trail -/

namespace Novato

theorem registrar_casos (atual : Sala) (trajeto : List CStr) :
    (MAX_TRAJETO ≤ trajeto.length ∧ registrar atual trajeto = trajeto) ∨
    (trajeto.length < MAX_TRAJETO ∧ registrar atual trajeto = trajeto ++ [atual.nome]) := by
  unfold registrar
  split
  · rename_i h
    exact Or.inr ⟨h, rfl⟩
  · rename_i h
    exact Or.inl ⟨by omega, rfl⟩

theorem registrar_length (atual : Sala) (trajeto : List CStr)
    (h : trajeto.length ≤ MAX_TRAJETO) : (registrar atual trajeto).length ≤ MAX_TRAJETO := by
  rcases registrar_casos atual trajeto with ⟨_, h2⟩ | ⟨h1, h2⟩
  · rw [h2]
    exact h
  · rw [h2, List.length_append, List.length_singleton]
    omega

theorem registrar_prefixo (atual : Sala) (trajeto : List CStr) :
    trajeto <+: registrar atual trajeto := by
  rcases registrar_casos atual trajeto with ⟨_, h2⟩ | ⟨_, h2⟩
  · rw [h2]
  · rw [h2]
    exact List.prefix_append _ _

theorem laco_length (entrada : List CStr) (atual : Sala) (trajeto : List CStr)
    (h : trajeto.length ≤ MAX_TRAJETO) :
    (laco atual trajeto entrada).trajeto.length ≤ MAX_TRAJETO := by
  induction entrada generalizing atual trajeto with
  | nil =>
    simp only [laco]
    split <;> exact registrar_length atual trajeto h
  | cons linha resto ih =>
    simp only [laco]
    split
    · exact registrar_length atual trajeto h
    · split
      · exact registrar_length atual trajeto h
      · exact ih _ _ (registrar_length atual trajeto h)

theorem laco_prefixo (entrada : List CStr) (atual : Sala) (trajeto : List CStr) :
    trajeto <+: (laco atual trajeto entrada).trajeto := by
  induction entrada generalizing atual trajeto with
  | nil =>
    simp only [laco]
    split <;> exact registrar_prefixo atual trajeto
  | cons linha resto ih =>
    simp only [laco]
    split
    · exact registrar_prefixo atual trajeto
    · split
      · exact registrar_prefixo atual trajeto
      · exact (registrar_prefixo atual trajeto).trans (ih _ _)

theorem explorar_length (raiz : Sala) (entrada : List CStr) :
    (explorarSalas raiz entrada).trajeto.length ≤ MAX_TRAJETO := by
  cases raiz with
  | nil => simp [explorarSalas, MAX_TRAJETO]
  | node n e d => exact laco_length entrada _ [] (by simp [MAX_TRAJETO])

/-- C27: in `explorarSalas` of the Novato program, for every map and every
command sequence of any length, the trail counter `passos` (the length of the
trail) never exceeds 128: it is at most 128 at the end and at every pass of
the loop, since the trail only grows; every write to the trail array is at
index `passos < 128`, and the final display reads the indices below `passos`,
all in 0..127. -/
theorem C27_trail_stays_in_bounds (raiz atual : Sala) (trajeto entrada : List CStr)
    (h : trajeto.length ≤ MAX_TRAJETO) :
    MAX_TRAJETO = 128 ∧
    (explorarSalas raiz entrada).trajeto.length ≤ 128 ∧
    (∀ i ∈ List.range (explorarSalas raiz entrada).trajeto.length, i < 128) ∧
    (laco atual trajeto entrada).trajeto.length ≤ 128 ∧
    trajeto <+: (laco atual trajeto entrada).trajeto ∧
    (registrar atual trajeto).length ≤ 128 ∧
    (registrar atual trajeto = trajeto ∨
      (trajeto.length < 128 ∧ registrar atual trajeto = trajeto ++ [atual.nome])) := by
  have hmax : MAX_TRAJETO = 128 := rfl
  refine ⟨hmax, ?_, ?_, ?_, laco_prefixo entrada atual trajeto, ?_, ?_⟩
  · exact explorar_length raiz entrada
  · intro i hi
    have := explorar_length raiz entrada
    rw [List.mem_range] at hi
    rw [hmax] at this
    omega
  · exact laco_length entrada atual trajeto h
  · exact registrar_length atual trajeto h
  · rcases registrar_casos atual trajeto with ⟨_, h2⟩ | ⟨h1, h2⟩
    · exact Or.inl h2
    · exact Or.inr ⟨h1, h2⟩

set_option maxRecDepth 1000000 in
theorem trajeto_cheio :
    (explorarSalas montarMapa (List.replicate 130 (lit "x\n"))).trajeto.length = 128 := by
  decide

/-- Witness of C27: 130 unrecognized commands in the hall fill the trail, which
stops at 128 entries. -/
theorem C27_trail_stays_in_bounds_witness :
    ([] : List CStr).length ≤ MAX_TRAJETO ∧
    (explorarSalas montarMapa (List.replicate 130 (lit "x\n"))).trajeto.length = 128 ∧
    (explorarSalas montarMapa (List.replicate 130 (lit "x\n"))).trajeto.length ≤ 128 :=
  ⟨by decide, trajeto_cheio,
    (C27_trail_stays_in_bounds montarMapa montarMapa []
      (List.replicate 130 (lit "x\n")) (by decide)).2.1⟩

end Novato

/-! ## The listing depends on the inserted texts only -/

theorem contagem_nil (x : CStr) : contagem [] x = 0 := rfl

theorem contagem_cons (y : CStr) (n : Int) (l : List (CStr × Int)) (x : CStr) :
    contagem ((y, n) :: l) x = (if y = x then n else 0) + contagem l x := by
  unfold contagem
  by_cases h : y = x
  · simp [List.filter_cons, h]
  · simp [List.filter_cons, h]

theorem contagem_append (l1 l2 : List (CStr × Int)) (x : CStr) :
    contagem (l1 ++ l2) x = contagem l1 x + contagem l2 x := by
  simp [contagem, List.filter_append]

theorem contagem_inserir (r : PistaNode) (c : Nat) (s : CStr) (x : CStr) :
    contagem (listar (inserirPista r (some (c :: s)))) x =
      contagem (listar r) x + (if x = c :: s then 1 else 0) := by
  induction r with
  | nil =>
    simp only [inserirPista, listar, List.nil_append, contagem_cons, contagem_nil]
    by_cases h : x = c :: s
    · simp [h]
    · have h2 : ¬ c :: s = x := fun e => h e.symm
      simp [h, h2]
  | node y n l d ihl ihd =>
    simp only [inserirPista]
    split
    · rename_i heq
      have hy : c :: s = y := (strcmp_eq_zero_iff _ _).mp heq
      simp only [listar, contagem_append, contagem_cons]
      by_cases h : y = x
      · have h2 : x = c :: s := by rw [hy, h]
        simp only [h, h2, if_true]
        omega
      · have h2 : ¬ x = c :: s := by
          intro e
          exact h (by rw [← hy, e])
        simp only [h, h2, if_false]
        omega
    · split
      · simp only [listar, contagem_append, contagem_cons, ihl]
        omega
      · simp only [listar, contagem_append, contagem_cons, ihd]
        omega

theorem contagem_inserir_opcao (r : PistaNode) (o : Option CStr) (x : CStr) (hx : x ≠ []) :
    contagem (listar (inserirPista r o)) x =
      contagem (listar r) x + (if o = some x then 1 else 0) := by
  cases o with
  | none =>
    have : inserirPista r none = r := by cases r <;> rfl
    simp [this]
  | some t =>
    cases t with
    | nil =>
      have h1 : inserirPista r (some []) = r := by cases r <;> rfl
      have h2 : ¬ (some ([] : CStr) = some x) := by
        intro e
        exact hx (Option.some.inj e).symm
      simp [h1, h2]
    | cons c s =>
      rw [contagem_inserir]
      by_cases h : x = c :: s
      · simp [h]
      · have h2 : ¬ (some (c :: s) = some x) := fun e => h (Option.some.inj e).symm
        simp [h, h2]

theorem contagem_foldl (textos : List (Option CStr)) (r : PistaNode) (x : CStr)
    (hx : x ≠ []) :
    contagem (listar (textos.foldl inserirPista r)) x =
      contagem (listar r) x + (vezes textos x : Int) := by
  induction textos generalizing r with
  | nil => simp [vezes]
  | cons o os ih =>
    simp only [List.foldl_cons]
    rw [ih, contagem_inserir_opcao r o x hx]
    by_cases h : o = some x
    · simp only [h, if_true, vezes, List.filter_cons, decide_True, List.length_cons]
      push_cast
      omega
    · simp only [h, if_false, vezes, List.filter_cons, decide_False]
      simp

theorem vezes_perm (t1 t2 : List (Option CStr)) (h : t1.Perm t2) (x : CStr) :
    vezes t1 x = vezes t2 x :=
  (h.filter _).length_eq

theorem contagem_zero (l : List (CStr × Int)) (x : CStr) (h : ∀ e ∈ l, e.1 ≠ x) :
    contagem l x = 0 := by
  induction l with
  | nil => rfl
  | cons e l ih =>
    obtain ⟨y, n⟩ := e
    have hy : ¬ y = x := h (y, n) (List.mem_cons_self _ _)
    rw [contagem_cons, ih (fun e he => h e (List.mem_cons_of_mem _ he))]
    simp [hy]

theorem contagem_mem (l : List (CStr × Int)) (x : CStr) (n : Int)
    (hs : l.Pairwise (fun a b => antes a.1 b.1)) (hm : (x, n) ∈ l) : contagem l x = n := by
  induction l with
  | nil => simp at hm
  | cons e l ih =>
    obtain ⟨y, m⟩ := e
    rw [List.pairwise_cons] at hs
    rw [contagem_cons]
    rcases List.mem_cons.mp hm with h | h
    · have hy : y = x := (Prod.mk.inj h).1.symm
      have hm2 : m = n := (Prod.mk.inj h).2.symm
      have hz : contagem l x = 0 := by
        apply contagem_zero
        intro e he hex
        have := hs.1 e he
        rw [hex, hy] at this
        exact antes_irrefl _ this
      simp [hy, hm2, hz]
    · have hy : ¬ y = x := by
        intro e
        have := hs.1 (x, n) h
        rw [e] at this
        exact antes_irrefl _ this
      simp [hy, ih hs.2 h]

theorem mem_of_contagem_ne_zero (l : List (CStr × Int)) (x : CStr) (h : contagem l x ≠ 0) :
    ∃ n, (x, n) ∈ l := by
  by_contra hne
  apply h
  apply contagem_zero
  intro e he hex
  apply hne
  refine ⟨e.2, ?_⟩
  rw [← hex]
  exact he

theorem listas_iguais (l1 l2 : List (CStr × Int))
    (hs1 : l1.Pairwise (fun a b => antes a.1 b.1))
    (hs2 : l2.Pairwise (fun a b => antes a.1 b.1))
    (hp2 : ∀ e ∈ l2, e.1 ≠ [] ∧ 1 ≤ e.2)
    (hp1 : ∀ e ∈ l1, e.1 ≠ [] ∧ 1 ≤ e.2)
    (hc : ∀ x, x ≠ [] → contagem l1 x = contagem l2 x) : l1 = l2 := by
  have hsub : ∀ (a b : List (CStr × Int)), a.Pairwise (fun a b => antes a.1 b.1) →
      b.Pairwise (fun a b => antes a.1 b.1) → (∀ e ∈ a, e.1 ≠ [] ∧ 1 ≤ e.2) →
      (∀ x, x ≠ [] → contagem a x = contagem b x) → ∀ e ∈ a, e ∈ b := by
    intro a b ha hb hpa hcab e he
    obtain ⟨x, n⟩ := e
    have hx := hpa (x, n) he
    have h1 : contagem a x = n := contagem_mem a x n ha he
    have h2 : contagem b x = n := by rw [← hcab x hx.1, h1]
    have h3 : contagem b x ≠ 0 := by
      rw [h2]
      have := hx.2
      simp only at this
      omega
    obtain ⟨m, hm⟩ := mem_of_contagem_ne_zero b x h3
    have h4 : contagem b x = m := contagem_mem b x m hb hm
    have : m = n := by rw [← h4, h2]
    rw [← this]
    exact hm
  have hnd : ∀ (a : List (CStr × Int)), a.Pairwise (fun a b => antes a.1 b.1) → a.Nodup := by
    intro a ha
    unfold List.Nodup
    refine ha.imp ?_
    intro u v huv heq
    rw [heq] at huv
    exact antes_irrefl _ huv
  have hperm : l1.Perm l2 :=
    (List.perm_ext_iff_of_nodup (hnd l1 hs1) (hnd l2 hs2)).mpr
      (fun e => ⟨hsub l1 l2 hs1 hs2 hp1 hc e,
        hsub l2 l1 hs2 hs1 hp2 (fun x hx => (hc x hx).symm) e⟩)
  haveI : IsAntisymm (CStr × Int) (fun a b => antes a.1 b.1) :=
    ⟨fun a b hab hba => absurd (antes_trans hab hba) (antes_irrefl _)⟩
  exact List.eq_of_perm_of_sorted hperm hs1 hs2

theorem listar_pairwise (r : PistaNode) (h : Ordenada r) :
    (listar r).Pairwise (fun a b => antes a.1 b.1) := by
  have := ordenada_pairwise r h
  unfold textosDe at this
  exact List.pairwise_map.mp this

/-- C23: the in-order listing depends only on which texts were inserted and
how many times: for every list of arguments and every permutation of it,
inserting either into the empty tree with `inserirPista` gives the same
in-order sequence of pairs of text and count. -/
theorem C23_listing_is_order_independent (t1 t2 : List (Option CStr)) (h : t1.Perm t2) :
    emOrdem (aposPistas t1) = emOrdem (aposPistas t2) := by
  rw [emOrdem_eq_listar, emOrdem_eq_listar]
  apply listas_iguais
  · exact listar_pairwise _ (ordenada_aposPistas t1)
  · exact listar_pairwise _ (ordenada_aposPistas t2)
  · exact entradas_foldl t2 .nil (by simp [listar])
  · exact entradas_foldl t1 .nil (by simp [listar])
  · intro x hx
    unfold aposPistas
    rw [contagem_foldl t1 .nil x hx, contagem_foldl t2 .nil x hx, vezes_perm t1 t2 h x]

/-- Witness of C23: two orders of the same three insertions, which give trees
of different shapes and the same listing. -/
theorem C23_listing_is_order_independent_witness :
    [some (lit "Luva"), some (lit "Adega"), some (lit "Luva")].Perm
      [some (lit "Adega"), some (lit "Luva"), some (lit "Luva")] ∧
    aposPistas [some (lit "Luva"), some (lit "Adega"), some (lit "Luva")] ≠
      aposPistas [some (lit "Adega"), some (lit "Luva"), some (lit "Luva")] ∧
    emOrdem (aposPistas [some (lit "Luva"), some (lit "Adega"), some (lit "Luva")]) =
      emOrdem (aposPistas [some (lit "Adega"), some (lit "Luva"), some (lit "Luva")]) :=
  ⟨by decide, by decide,
    C23_listing_is_order_independent
      [some (lit "Luva"), some (lit "Adega"), some (lit "Luva")]
      [some (lit "Adega"), some (lit "Luva"), some (lit "Luva")] (by decide)⟩

/-! ## The table of the game -/

theorem encontrar_passo (w : Nat) (ht : HashTable) (k' v' k : CStr)
    (hwf : BemFormada ht) (hcap : 0 < ht.capacidade) :
    encontrarSuspeito w (inserirNaHash w (some ht) (some k') (some v')) (some k) =
      if k' = k then some v' else encontrarSuspeito w (some ht) (some k) := by
  by_cases h : k' = k
  · rw [if_pos h, ← h]
    exact encontrar_apos_inserir w ht k' v' hwf hcap
  · rw [if_neg h]
    exact encontrar_apos_inserir_outro w ht k' v' k h

theorem encontrar_foldl_assoc (w : Nat) (ops : List (CStr × CStr)) (ht : HashTable)
    (k : CStr) (hwf : BemFormada ht) (hcap : 0 < ht.capacidade) :
    encontrarSuspeito w
        (ops.foldl (fun o p => inserirNaHash w o (some p.1) (some p.2)) (some ht)) (some k) =
      ops.foldl (fun r p => if p.1 = k then some p.2 else r)
        (encontrarSuspeito w (some ht) (some k)) := by
  induction ops generalizing ht with
  | nil => rfl
  | cons p ps ih =>
    obtain ⟨ht', h1, hwf', hc'⟩ := bemFormada_inserir w ht p.1 p.2 hwf
    simp only [List.foldl_cons]
    rw [h1, ih ht' hwf' (by rw [hc']; exact hcap), ← h1,
      encontrar_passo w ht p.1 p.2 k hwf hcap]

namespace Mestre

theorem tabelaDoJogo_eq (w : Nat) :
    tabelaDoJogo w =
      associacoesDoJogo.foldl (fun o p => inserirNaHash w o (some p.1) (some p.2))
        (some (criarHash 101)) := rfl

/-- Lookup in the table of `main`, whatever the width of `unsigned long`. -/
theorem encontrar_tabelaDoJogo (w : Nat) (k : CStr) :
    encontrarSuspeito w (tabelaDoJogo w) (some k) = associado associacoesDoJogo k := by
  rw [tabelaDoJogo_eq, encontrar_foldl_assoc w _ _ k (bemFormada_criarHash 101) (by decide),
    encontrar_criarHash]
  rfl

end Mestre

theorem somaDoAcusado_inserir (w : Nat) (ht : Option HashTable) (acusado : CStr)
    (r : PistaNode) (c : Nat) (s : CStr) :
    somaDoAcusado w ht acusado (listar (inserirPista r (some (c :: s)))) =
      somaDoAcusado w ht acusado (listar r) +
        (if encontrarSuspeito w ht (some (c :: s)) = some acusado then 1 else 0) := by
  induction r with
  | nil =>
    simp only [inserirPista]
    rw [somaDoAcusado_node]
    simp [listar, somaDoAcusado]
  | node x n l d ihl ihd =>
    simp only [inserirPista]
    split
    · rename_i heq
      have hx : c :: s = x := (strcmp_eq_zero_iff _ _).mp heq
      rw [somaDoAcusado_node, somaDoAcusado_node, hx]
      split <;> omega
    · split
      · rw [somaDoAcusado_node, somaDoAcusado_node, ihl]
        omega
      · rw [somaDoAcusado_node, somaDoAcusado_node, ihd]
        omega

theorem total_inserir_sem_suspeito (w : Nat) (ht : Option HashTable) (acusado : CStr)
    (r : PistaNode) (t : CStr) (h : encontrarSuspeito w ht (some t) = none) :
    (percorrerInOrder (inserirPista r (some t)) (contarSeDoAcusado w)
      { ht := ht, acusado := acusado, total := 0 }).total =
    (percorrerInOrder r (contarSeDoAcusado w)
      { ht := ht, acusado := acusado, total := 0 }).total := by
  cases t with
  | nil =>
    have : inserirPista r (some []) = r := by cases r <;> rfl
    rw [this]
  | cons c s =>
    rw [total_eq_tally, total_eq_tally, tally, tally, somaDoAcusado_inserir, h]
    simp

namespace Mestre

/-- C25: with the table built by `criarHash(101)` and `popularMapaPistas`,
whatever the width of `unsigned long`, the clue that `pistaDaSala` gives for
Adega, "Taça com batom", has no associated suspect, the table holding the
other key "Taca com batom"; the clue of every other room of the map that has
one has an associated suspect; and collecting the clue of Adega into any clue
tree leaves the total counted for any accused as it was. -/
theorem C25_adega_clue_has_no_suspect (w : Nat) (pistas : PistaNode) (acusado : CStr)
    (adega : Sala) (hadega : adega.nome = lit "Adega") :
    pistaDaSala (lit "Adega") = some (lit "Taça com batom") ∧
    encontrarSuspeito w (tabelaDoJogo w) (some (lit "Taça com batom")) = none ∧
    encontrarSuspeito w (tabelaDoJogo w) (some (lit "Taca com batom")) =
      some (lit "Srta. Violeta") ∧
    (∀ s ∈ salasDe montarMapa, s.nome ≠ lit "Adega" → ∀ p, pistaDaSala s.nome = some p →
      ∃ sus, encontrarSuspeito w (tabelaDoJogo w) (some p) = some sus) ∧
    (percorrerInOrder (coletar adega pistas) (contarSeDoAcusado w)
      { ht := tabelaDoJogo w, acusado := acusado, total := 0 }).total =
    (percorrerInOrder pistas (contarSeDoAcusado w)
      { ht := tabelaDoJogo w, acusado := acusado, total := 0 }).total := by
  have hnone : encontrarSuspeito w (tabelaDoJogo w) (some (lit "Taça com batom")) = none := by
    rw [encontrar_tabelaDoJogo]
    decide
  refine ⟨by decide, hnone, ?_, ?_, ?_⟩
  · rw [encontrar_tabelaDoJogo]
    decide
  · have hall : ∀ s ∈ salasDe montarMapa, s.nome ≠ lit "Adega" →
        ∀ p ∈ pistaDaSala s.nome, (associado associacoesDoJogo p).isSome = true := by
      decide
    intro s hs hne p hp
    have h1 := hall s hs hne p hp
    rw [encontrar_tabelaDoJogo]
    exact Option.isSome_iff_exists.mp h1
  · have hp : pistaDaSala adega.nome = some (lit "Taça com batom") := by
      rw [hadega]
      decide
    rw [coletar_eq, hp]
    exact total_inserir_sem_suspeito w (tabelaDoJogo w) acusado pistas _ hnone

/-- Witness of C25: the room Adega of the map, visited after the hall, with
"Srta. Violeta" accused. -/
theorem C25_adega_clue_has_no_suspect_witness :
    montarMapa.esq.esq.esq.nome = lit "Adega" ∧
    (percorrerInOrder
      (coletar montarMapa.esq.esq.esq (aposPistas [some (lit "Pegadas de lama")]))
      (contarSeDoAcusado 64)
      { ht := tabelaDoJogo 64, acusado := lit "Srta. Violeta", total := 0 }).total =
    (percorrerInOrder (aposPistas [some (lit "Pegadas de lama")]) (contarSeDoAcusado 64)
      { ht := tabelaDoJogo 64, acusado := lit "Srta. Violeta", total := 0 }).total :=
  ⟨by decide,
    (C25_adega_clue_has_no_suspect 64 (aposPistas [some (lit "Pegadas de lama")])
      (lit "Srta. Violeta") montarMapa.esq.esq.esq (by decide)).2.2.2.2⟩

end Mestre

/-! ## Who can be found guilty by valid navigation -/

theorem total_foldl (w : Nat) (ht : Option HashTable) (acusado : CStr)
    (clues : List (Option CStr)) (r : PistaNode) :
    somaDoAcusado w ht acusado (listar (clues.foldl inserirPista r)) =
      somaDoAcusado w ht acusado (listar r) +
        (((clues.filterMap (suspeitoDaPista (fun k => encontrarSuspeito w ht (some k)))).filter
          (fun x => decide (x = acusado))).length : Int) := by
  induction clues generalizing r with
  | nil => simp
  | cons o os ih =>
    simp only [List.foldl_cons]
    rw [ih]
    cases o with
    | none =>
      have h1 : inserirPista r none = r := by cases r <;> rfl
      simp [h1, suspeitoDaPista]
    | some t =>
      cases t with
      | nil =>
        have h1 : inserirPista r (some []) = r := by cases r <;> rfl
        simp [h1, suspeitoDaPista]
      | cons c s =>
        rw [somaDoAcusado_inserir]
        cases hl : encontrarSuspeito w ht (some (c :: s)) with
        | none => simp [suspeitoDaPista, hl]
        | some sus =>
          by_cases hs : sus = acusado
          · simp only [List.filterMap_cons, suspeitoDaPista, hl, hs, if_true,
              List.filter_cons, decide_True, List.length_cons]
            push_cast
            omega
          · have hs2 : ¬ (some sus = some acusado) := fun e => hs (Option.some.inj e)
            simp only [List.filterMap_cons, suspeitoDaPista, hl, hs2, if_false,
              List.filter_cons, hs, decide_False]
            simp

theorem mem_of_two_le_filter (l : List CStr) (a : CStr)
    (h : 2 ≤ (l.filter (fun x => decide (x = a))).length) : a ∈ l := by
  cases hf : l.filter (fun x => decide (x = a)) with
  | nil => simp [hf] at h
  | cons y ys =>
    have hy : y ∈ l.filter (fun x => decide (x = a)) := by simp [hf]
    have h1 := List.mem_filter.mp hy
    have h2 : y = a := by simpa using h1.2
    rw [← h2]
    exact h1.1

namespace Mestre

theorem percurso_mem (ops : List Nat) (s : Sala) (salas : List Sala) (hs : s ≠ .nil)
    (hp : percurso s ops = some salas) : (ops, salas) ∈ todosPercursos s := by
  induction ops generalizing s salas with
  | nil =>
    simp only [percurso, Option.some.injEq] at hp
    subst hp
    cases s with
    | nil => exact absurd rfl hs
    | node n e d => simp [todosPercursos]
  | cons op ops ih =>
    cases s with
    | nil => exact absurd rfl hs
    | node n e d =>
      simp only [percurso, Sala.esq, Sala.dir] at hp
      split at hp
      · rename_i h1
        cases hr : percurso e ops with
        | none => simp [hr] at hp
        | some r =>
          simp only [hr, Option.map_some', Option.some.injEq] at hp
          subst hp
          have := ih e r h1.2 hr
          simp only [todosPercursos, List.mem_cons, List.mem_append, List.mem_map]
          right
          left
          exact ⟨(ops, r), this, by simp [h1.1]⟩
      · split at hp
        · rename_i h1
          cases hr : percurso d ops with
          | none => simp [hr] at hp
          | some r =>
            simp only [hr, Option.map_some', Option.some.injEq] at hp
            subst hp
            have := ih d r h1.2 hr
            simp only [todosPercursos, List.mem_cons, List.mem_append, List.mem_map]
            right
            right
            exact ⟨(ops, r), this, by simp [h1.1]⟩
        · simp at hp

theorem explorar_percurso (hall : Sala) (ht : Option HashTable)
    (linhas fim : List CStr) (salas : List Sala) (hhall : hall ≠ .nil)
    (hp : percurso hall (linhas.map (fun l => lerOpcao (some l))) = some salas)
    (hfim : lerOpcao fim.head? = 115) :
    explorarSalas hall .nil ht (linhas ++ fim) =
      (salas.map (fun s => pistaDaSala s.nome)).foldl inserirPista .nil := by
  have hexp : explorarSalas hall .nil ht (linhas ++ fim) =
      (laco hall .nil (linhas ++ fim)).2.1 := by
    cases hall with
    | nil => exact absurd rfl hhall
    | node n e d => rfl
  rw [hexp, laco_percurso linhas hall .nil salas fim hp hfim, List.foldl_map]
  congr 1
  funext p s
  exact coletar_eq s p

theorem total_do_percurso (w : Nat) (salas : List Sala) (acusado : CStr) :
    (percorrerInOrder ((salas.map (fun s => pistaDaSala s.nome)).foldl inserirPista .nil)
      (contarSeDoAcusado w)
      { ht := tabelaDoJogo w, acusado := acusado, total := 0 }).total =
    (((suspeitosDoPercurso salas).filter (fun x => decide (x = acusado))).length : Int) := by
  rw [total_eq_tally, tally, total_foldl]
  have hf : (fun k => encontrarSuspeito w (tabelaDoJogo w) (some k)) =
      associado associacoesDoJogo := by
    funext k
    exact encontrar_tabelaDoJogo w k
  rw [hf]
  simp [somaDoAcusado, listar, suspeitosDoPercurso]

theorem percursos_do_mapa :
    ∀ pr ∈ todosPercursos montarMapa,
      (∀ a ∈ suspeitosDoPercurso pr.2,
        2 ≤ ((suspeitosDoPercurso pr.2).filter (fun x => decide (x = a))).length →
          a = lit "Jardineiro" ∧ lit "Estufa" ∈ pr.2.map Sala.nome) ∧
      (lit "Estufa" ∈ pr.2.map Sala.nome →
        2 ≤ ((suspeitosDoPercurso pr.2).filter
          (fun x => decide (x = lit "Jardineiro"))).length) ∧
      (lit "Estufa" ∈ pr.2.map Sala.nome ↔ pr.1 = [100, 100, 100]) := by
  decide

/-- C26: on the fixed map with the table of `main`, whatever the width of
`unsigned long`, for every command sequence made only of moves to existing
children and ended by stop, and every accused name given, the verdict is
CULPADO if and only if the accused is "Jardineiro" and the walk reaches
Estufa, which is so exactly when the commands are d, d, d; in every other
case the verdict is INSUFICIENTE. -/
theorem C26_only_the_gardener_at_estufa (w : Nat) (linhas fim : List CStr)
    (salas : List Sala) (nome : CStr) (resto : List CStr)
    (hp : percurso montarMapa (linhas.map (fun l => lerOpcao (some l))) = some salas)
    (hfim : lerOpcao fim.head? = 115) (hnome : rstrip nome ≠ []) :
    ((∃ t, verificarSuspeitoFinal w
          (explorarSalas montarMapa .nil (tabelaDoJogo w) (linhas ++ fim))
          (tabelaDoJogo w) (nome :: resto) = .culpado t (rstrip nome)) ↔
      (rstrip nome = lit "Jardineiro" ∧ lit "Estufa" ∈ salas.map Sala.nome)) ∧
    (lit "Estufa" ∈ salas.map Sala.nome ↔
      linhas.map (fun l => lerOpcao (some l)) = [100, 100, 100]) ∧
    (¬ (rstrip nome = lit "Jardineiro" ∧ lit "Estufa" ∈ salas.map Sala.nome) →
      ∃ t, verificarSuspeitoFinal w
          (explorarSalas montarMapa .nil (tabelaDoJogo w) (linhas ++ fim))
          (tabelaDoJogo w) (nome :: resto) = .insuficiente t (rstrip nome)) := by
  have hmem := percurso_mem _ montarMapa salas (by decide) hp
  obtain ⟨h1, h2, h3⟩ := percursos_do_mapa _ hmem
  simp only at h1 h2 h3
  have hexp := explorar_percurso montarMapa (tabelaDoJogo w) linhas fim salas (by decide) hp hfim
  have htot := total_do_percurso w salas (rstrip nome)
  have hiff : 2 ≤ ((suspeitosDoPercurso salas).filter
        (fun x => decide (x = rstrip nome))).length ↔
      (rstrip nome = lit "Jardineiro" ∧ lit "Estufa" ∈ salas.map Sala.nome) := by
    constructor
    · intro h
      exact h1 _ (mem_of_two_le_filter _ _ h) h
    · rintro ⟨hj, he⟩
      rw [hj]
      exact h2 he
  rw [verificar_cons w _ _ nome resto hnome, hexp, htot]
  refine ⟨?_, h3, ?_⟩
  · rw [← hiff]
    constructor
    · rintro ⟨t, ht⟩
      by_contra hlt
      have hlt2 : ¬ ((((suspeitosDoPercurso salas).filter
          (fun x => decide (x = rstrip nome))).length : Int) ≥ 2) := by omega
      rw [if_neg hlt2] at ht
      exact Julgamento.noConfusion ht
    · intro h
      have h2' : ((((suspeitosDoPercurso salas).filter
          (fun x => decide (x = rstrip nome))).length : Int) ≥ 2) := by omega
      exact ⟨_, by rw [if_pos h2']⟩
  · intro hnot
    have hlt : ¬ 2 ≤ ((suspeitosDoPercurso salas).filter
        (fun x => decide (x = rstrip nome))).length := fun h => hnot (hiff.mp h)
    have hlt2 : ¬ ((((suspeitosDoPercurso salas).filter
        (fun x => decide (x = rstrip nome))).length : Int) ≥ 2) := by omega
    exact ⟨_, by rw [if_neg hlt2]⟩

/-- Witness of C26: the walk d, d, d to Estufa with "Jardineiro" accused. -/
theorem C26_only_the_gardener_at_estufa_witness :
    percurso montarMapa ([lit "d\n", lit "d\n", lit "d\n"].map (fun l => lerOpcao (some l))) =
      some [montarMapa, montarMapa.dir, montarMapa.dir.dir, montarMapa.dir.dir.dir] ∧
    lerOpcao [lit "s\n"].head? = 115 ∧ rstrip (lit "Jardineiro\n") ≠ [] ∧
    ((∃ t, verificarSuspeitoFinal 64
          (explorarSalas montarMapa .nil (tabelaDoJogo 64)
            ([lit "d\n", lit "d\n", lit "d\n"] ++ [lit "s\n"]))
          (tabelaDoJogo 64) (lit "Jardineiro\n" :: []) =
            .culpado t (rstrip (lit "Jardineiro\n"))) ↔
      (rstrip (lit "Jardineiro\n") = lit "Jardineiro" ∧
        lit "Estufa" ∈ [montarMapa, montarMapa.dir, montarMapa.dir.dir,
          montarMapa.dir.dir.dir].map Sala.nome)) :=
  ⟨by decide, by decide, by decide,
    (C26_only_the_gardener_at_estufa 64 [lit "d\n", lit "d\n", lit "d\n"] [lit "s\n"]
      [montarMapa, montarMapa.dir, montarMapa.dir.dir, montarMapa.dir.dir.dir]
      (lit "Jardineiro\n") [] (by decide) (by decide) (by decide)).1⟩

end Mestre

end DetectiveQuest
